import Mathlib

/-!
Verification development for the conversational travel-planner.

This file shallowly embeds the orchestration core of the repository —
the fingerprint utility (`core/fp.py`), the research runners and merge gate
(`core/orchestrator.py`), the component registry (`core/component_registry.py`),
the itinerary schema validator (`core/component_schemas.py`), the composer's
post-generation corrections (`agents/plan_composer_agent.py`), the hotel
selection refinement (`agents/refinement_agent.py`) and the destination
discovery cycle cap (`agents/destination_discovery_agent.py`) — and proves or
refutes the specified properties of that core.

Python values held in the mutable conversation-state dictionaries are modelled
by the `JVal` type below; dictionaries are ordered association lists (`JObj`),
mirroring Python dict semantics (insertion order, first-key lookup, in-place
replacement on assignment).  Code that can raise is modelled in `Except`.
-/

set_option maxHeartbeats 1000000

mutual

/-- A Python/JSON value as stored in the conversation state. -/
inductive JVal where
  | null
  | bool (b : Bool)
  | num (n : Int)
  | str (s : String)
  | arr (items : JArr)
  | obj (fields : JObj)
deriving DecidableEq

/-- A Python list of values. -/
inductive JArr where
  | nil
  | cons (v : JVal) (t : JArr)
deriving DecidableEq

/-- A Python dict with string keys: an ordered association list. -/
inductive JObj where
  | nil
  | cons (k : String) (v : JVal) (t : JObj)
deriving DecidableEq

end

/-- Lookup, mirroring `key in d` / `d[key]`: first (unique) binding wins. -/
def JObj.get : JObj → String → Option JVal
  | .nil, _ => none
  | .cons k v t, key => if k = key then some v else t.get key

/-- Python `d[key] = v`: replace the binding in place, else append at the end. -/
def JObj.set : JObj → String → JVal → JObj
  | .nil, key, v => .cons key v .nil
  | .cons k w t, key, v => if k = key then .cons k v t else .cons k w (t.set key v)

/-- Python `d.pop(key, None)`: drop the binding if present. -/
def JObj.erase : JObj → String → JObj
  | .nil, _ => .nil
  | .cons k w t, key => if k = key then t else .cons k w (t.erase key)

/-- Python `d.update(u)`: assign `u`'s bindings into `d` in order. -/
def JObj.update : JObj → JObj → JObj
  | o, .nil => o
  | o, .cons k v t => (o.set k v).update t

/-- View a dict as a list of entries (Python iteration order). -/
def JObj.toList : JObj → List (String × JVal)
  | .nil => []
  | .cons k v t => (k, v) :: t.toList

/-- Build a dict from a list of entries. -/
def JObj.ofList : List (String × JVal) → JObj
  | [] => .nil
  | (k, v) :: t => .cons k v (JObj.ofList t)

/-- View a Python list as a Lean list. -/
def JArr.toList : JArr → List JVal
  | .nil => []
  | .cons v t => v :: t.toList

/-- Build a Python list from a Lean list. -/
def JArr.ofList : List JVal → JArr
  | [] => .nil
  | v :: t => .cons v (JArr.ofList t)

/-- Python truthiness (`bool(v)`) for the values the state holds. -/
def JVal.truthy : JVal → Bool
  | .null => false
  | .bool b => b
  | .num n => n != 0
  | .str s => s != ""
  | .arr .nil => false
  | .arr (.cons _ _) => true
  | .obj .nil => false
  | .obj (.cons _ _ _) => true

/-- Python `dict.get(key)`: `None` when the key is absent. -/
def pyGet (o : JObj) (k : String) : JVal := (o.get k).getD .null

/-- Python's whitespace set for `str.strip()` (ASCII part). -/
def pyIsSpace (c : Char) : Bool :=
  c = ' ' || c = '\t' || c = '\n' || c = '\r' || c = '\x0b' || c = '\x0c'

/-- `str.strip()`: drop leading and trailing whitespace (kernel-computable
structural recursion over the character list). -/
def pyStrip (s : String) : String :=
  String.mk (((s.data.dropWhile pyIsSpace).reverse.dropWhile pyIsSpace).reverse)

/-- ASCII lowercasing of one character (`str.lower()` on the ASCII range). -/
def pyCharLower (c : Char) : Char :=
  if 'A' ≤ c ∧ c ≤ 'Z' then Char.ofNat (c.toNat + 32) else c

/-- `str.lower()`. -/
def pyLower (s : String) : String := String.mk (s.data.map pyCharLower)

/-- Parse a digits-only string (`int(...)` on a regex `\\d+` capture). -/
def digitsToNat (s : String) : Nat :=
  s.data.foldl (fun acc c => acc * 10 + (c.toNat - 48)) 0

/-- `fp.py::_normalize_value`: `None` stays `None`; a string is stripped and
the sentinels `""` and `"null"` (case-insensitive) collapse to `None`; every
other value is returned unchanged. -/
def normalizeValue : JVal → JVal
  | .null => .null
  | .str s =>
      let stripped := pyStrip s
      if stripped = "" ∨ pyLower stripped = "null" then .null else .str stripped
  | .bool b => .bool b
  | .num n => .num n
  | .arr a => .arr a
  | .obj o => .obj o

/-- The `subset` dict built by `compute_fp`: `subset[key] = _normalize_value(ex.get(key))`
for each tracked key, in order. -/
def fpSubset (ex : JObj) (keys : List String) : JObj :=
  keys.foldl (fun o k => o.set k (normalizeValue (pyGet ex k))) .nil

/-- One hexadecimal digit, lowercase as `hashlib`'s `hexdigest` produces. -/
def hexDigitChar (n : Nat) : Char :=
  if n = 0 then '0' else if n = 1 then '1' else if n = 2 then '2'
  else if n = 3 then '3' else if n = 4 then '4' else if n = 5 then '5'
  else if n = 6 then '6' else if n = 7 then '7' else if n = 8 then '8'
  else if n = 9 then '9' else if n = 10 then 'a' else if n = 11 then 'b'
  else if n = 12 then 'c' else if n = 13 then 'd' else if n = 14 then 'e'
  else 'f'

/-- A `\uXXXX` escape for a code unit below `0x10000`. -/
def uEscape4 (n : Nat) : List Char :=
  ['\\', 'u', hexDigitChar (n / 4096 % 16), hexDigitChar (n / 256 % 16),
   hexDigitChar (n / 16 % 16), hexDigitChar (n % 16)]

/-- `json.dumps` escape for a non-ASCII code point (`ensure_ascii=True`):
a single `\uXXXX` unit below `0x10000`, a surrogate pair above. -/
def uEscapeCodePoint (n : Nat) : List Char :=
  if n < 0x10000 then uEscape4 n
  else uEscape4 (0xD800 + (n - 0x10000) / 0x400) ++ uEscape4 (0xDC00 + (n - 0x10000) % 0x400)

/-- Per-character JSON string escaping as `json.dumps` performs it. -/
def escapeChar (c : Char) : List Char :=
  if c = '"' then ['\\', '"']
  else if c = '\\' then ['\\', '\\']
  else if c = '\n' then ['\\', 'n']
  else if c = '\r' then ['\\', 'r']
  else if c = '\t' then ['\\', 't']
  else if c = '\x08' then ['\\', 'b']
  else if c = '\x0c' then ['\\', 'f']
  else if c.toNat < 0x20 ∨ 0x7F ≤ c.toNat then uEscapeCodePoint c.toNat
  else [c]

/-- JSON-quote a string. -/
def quoteJson (s : String) : String :=
  "\"" ++ String.mk (s.data.foldr (fun c acc => escapeChar c ++ acc) []) ++ "\""

/-- Stable insertion into a key-sorted entry list (`sort_keys=True`). -/
def insertByKey (p : String × JVal) : List (String × JVal) → List (String × JVal)
  | [] => [p]
  | q :: t =>
      match compare p.1 q.1 with
      | .gt => q :: insertByKey p t
      | _ => p :: q :: t

/-- Sort dict entries by key. -/
def sortByKey (l : List (String × JVal)) : List (String × JVal) :=
  l.foldr insertByKey []

mutual

/-- Recursively sort every dict in a value by key, modelling the effect of
`json.dumps(..., sort_keys=True)` before serialization. -/
def sortKeysDeep : JVal → JVal
  | .null => .null
  | .bool b => .bool b
  | .num n => .num n
  | .str s => .str s
  | .arr a => .arr (sortKeysArr a)
  | .obj o => .obj (JObj.ofList (sortByKey (sortKeysEntries o)))

/-- Sort the dicts inside each element of a list. -/
def sortKeysArr : JArr → JArr
  | .nil => .nil
  | .cons v t => .cons (sortKeysDeep v) (sortKeysArr t)

/-- Sort the dicts inside each value of a dict, returning the entry list. -/
def sortKeysEntries : JObj → List (String × JVal)
  | .nil => []
  | .cons k v t => (k, sortKeysDeep v) :: sortKeysEntries t

end

mutual

/-- Serialize a value in stored order, with `json.dumps`'s default separators. -/
def jsonRender : JVal → String
  | .null => "null"
  | .bool true => "true"
  | .bool false => "false"
  | .num n => toString n
  | .str s => quoteJson s
  | .arr a => "[" ++ jsonRenderArr a ++ "]"
  | .obj o => "\x7b" ++ jsonRenderObj o ++ "\x7d"

/-- Serialize list elements joined by `", "`. -/
def jsonRenderArr : JArr → String
  | .nil => ""
  | .cons v .nil => jsonRender v
  | .cons v (.cons w t) => jsonRender v ++ ", " ++ jsonRenderArr (.cons w t)

/-- Serialize dict entries joined by `", "` with `": "` between key and value. -/
def jsonRenderObj : JObj → String
  | .nil => ""
  | .cons k v .nil => quoteJson k ++ ": " ++ jsonRender v
  | .cons k v (.cons k2 v2 t) =>
      quoteJson k ++ ": " ++ jsonRender v ++ ", " ++ jsonRenderObj (.cons k2 v2 t)

end

/-- `json.dumps(v, sort_keys=True)` with default separators and ASCII escaping. -/
def jsonDumps (v : JVal) : String := jsonRender (sortKeysDeep v)

/-- UTF-8 encode one character (standard 1-4 byte encoding). -/
def utf8EncodeCharBytes (c : Char) : List Nat :=
  let n := c.toNat
  if n < 0x80 then [n]
  else if n < 0x800 then [0xC0 + n / 64, 0x80 + n % 64]
  else if n < 0x10000 then [0xE0 + n / 4096, 0x80 + n / 64 % 64, 0x80 + n % 64]
  else [0xF0 + n / 262144, 0x80 + n / 4096 % 64, 0x80 + n / 64 % 64, 0x80 + n % 64]

/-- `s.encode("utf-8")` as a list of byte values. -/
def utf8Bytes (s : String) : List Nat :=
  s.data.foldr (fun c acc => utf8EncodeCharBytes c ++ acc) []

/-- Reduce modulo the 32-bit word size (machine integers as `Nat % 2^32`). -/
def w32 (n : Nat) : Nat := n % 4294967296

/-- Rotate a 32-bit word left by `b` bits. -/
def rotl32 (b n : Nat) : Nat := w32 ((n <<< b) ||| (n >>> (32 - b)))

/-- Bitwise complement of a 32-bit word. -/
def not32 (n : Nat) : Nat := n ^^^ 0xFFFFFFFF

/-- Big-endian byte decomposition of a number into `w` bytes. -/
def bytesBE : Nat → Nat → List Nat
  | 0, _ => []
  | w + 1, n => bytesBE w (n / 256) ++ [n % 256]

/-- SHA-1 message padding: `0x80`, zeros to 56 mod 64, 8-byte big-endian bit length. -/
def sha1Pad (msg : List Nat) : List Nat :=
  msg ++ [0x80] ++ List.replicate ((119 - msg.length % 64) % 64) 0
      ++ bytesBE 8 (msg.length * 8)

/-- Split a byte list into 64-byte chunks (fuel-driven). -/
def chunk64 : Nat → List Nat → List (List Nat)
  | 0, _ => []
  | _, [] => []
  | fuel + 1, l => l.take 64 :: chunk64 fuel (l.drop 64)

/-- The i-th big-endian 32-bit word of a chunk. -/
def word32At (c : List Nat) (i : Nat) : Nat :=
  c.getD (4 * i) 0 * 16777216 + c.getD (4 * i + 1) 0 * 65536 +
    c.getD (4 * i + 2) 0 * 256 + c.getD (4 * i + 3) 0

/-- Extend the 16-word message schedule by `n` further words. -/
def sha1Extend (w : List Nat) : Nat → List Nat
  | 0 => w
  | n + 1 =>
      let i := w.length
      let x := (w.getD (i - 3) 0) ^^^ (w.getD (i - 8) 0) ^^^
               (w.getD (i - 14) 0) ^^^ (w.getD (i - 16) 0)
      sha1Extend (w ++ [rotl32 1 x]) n

/-- The five-word internal state of SHA-1. -/
structure Sha1State where
  h0 : Nat
  h1 : Nat
  h2 : Nat
  h3 : Nat
  h4 : Nat
deriving DecidableEq

/-- One SHA-1 round. -/
def sha1Round (w : List Nat) (st : Sha1State) (i : Nat) : Sha1State :=
  let a := st.h0
  let b := st.h1
  let c := st.h2
  let d := st.h3
  let e := st.h4
  let f :=
    if i < 20 then (b &&& c) ||| (not32 b &&& d)
    else if i < 40 then b ^^^ c ^^^ d
    else if i < 60 then (b &&& c) ||| (b &&& d) ||| (c &&& d)
    else b ^^^ c ^^^ d
  let k :=
    if i < 20 then 0x5A827999
    else if i < 40 then 0x6ED9EBA1
    else if i < 60 then 0x8F1BBCDC
    else 0xCA62C1D6
  let temp := w32 (rotl32 5 a + f + e + k + w.getD i 0)
  ⟨temp, a, rotl32 30 b, c, d⟩

/-- Process one 64-byte chunk. -/
def sha1Chunk (h : Sha1State) (c : List Nat) : Sha1State :=
  let w0 := (List.range 16).map (word32At c)
  let w := sha1Extend w0 64
  let f := (List.range 80).foldl (sha1Round w) h
  ⟨w32 (h.h0 + f.h0), w32 (h.h1 + f.h1), w32 (h.h2 + f.h2),
   w32 (h.h3 + f.h3), w32 (h.h4 + f.h4)⟩

/-- The SHA-1 digest of a byte list, as a 160-bit number. -/
def sha1Digest (msg : List Nat) : Nat :=
  let padded := sha1Pad msg
  let h := (chunk64 padded.length padded).foldl sha1Chunk
    ⟨0x67452301, 0xEFCDAB89, 0x98BADCFE, 0x10325476, 0xC3D2E1F0⟩
  w32 h.h0 * 2 ^ 128 + w32 h.h1 * 2 ^ 96 + w32 h.h2 * 2 ^ 64 + w32 h.h3 * 2 ^ 32 + w32 h.h4

/-- Fixed-width lowercase hex rendering (`w` digits, leading zeros kept). -/
def hexFixed : Nat → Nat → List Char
  | 0, _ => []
  | w + 1, n => hexFixed w (n / 16) ++ [hexDigitChar (n % 16)]

/-- `hashlib.sha1(payload.encode("utf-8")).hexdigest()`. -/
def sha1Hex (s : String) : String := String.mk (hexFixed 40 (sha1Digest (utf8Bytes s)))

/-- `fp.py::compute_fp`: serialize the normalized tracked subset with sorted
keys and hash it. -/
def computeFp (ex : JObj) (keys : List String) : String :=
  sha1Hex (jsonDumps (.obj (fpSubset ex keys)))

/-- Tracked string value helper: `ex.get(k)` viewed as a string, else `""`
(`orchestrator.py::_run_research::_clean_str`). -/
def cleanStr : JVal → String
  | .str s => pyStrip s
  | _ => ""

/-- A value stored under a top-level singleton key of `itinerary_components`:
the key may be missing (after `delete_component`), hold Python `None` (as
`new_state` and `register_component` initialize it), or hold a component dict. -/
inductive REntry where
  | absent
  | nullv
  | comp (o : JObj)
deriving DecidableEq

/-- The `itinerary_components` dict of the conversation state. -/
structure Registry where
  metadata : JObj
  accommodation : REntry
  transport : REntry
  days : List (String × JObj)
deriving DecidableEq

/-- The structure `register_component` creates when the key is missing:
`{"metadata": {}, "accommodation": None, "transport": None, "days": {}}`
(`new_state` in `core/state.py` creates the same shape). -/
def emptyRegistry : Registry := ⟨.nil, .nullv, .nullv, []⟩

/-- Lookup a day record by its key. -/
def getDay (days : List (String × JObj)) (k : String) : Option JObj :=
  (days.find? (fun p => p.1 == k)).map (·.2)

/-- Assign a day record: replace in place, else append (Python dict update). -/
def setDay (days : List (String × JObj)) (k : String) (d : JObj) : List (String × JObj) :=
  match days with
  | [] => [(k, d)]
  | (k', d') :: t => if k' = k then (k, d) :: t else (k', d') :: setDay t k d

/-- `component_registry.py::generate_component_id`: typed prefix, optional
day and slot, and a random suffix (the uuid draw is passed in explicitly). -/
def generateComponentId (ctype : String) (day? : Option Nat) (slot? : Option String)
    (suffix : String) : String :=
  let dayPart := match day? with
    | some n => [s!"day{n}"]
    | none => []
  let slotPart := match slot? with
    | some s => if s ≠ "" then [pyLower s] else []
    | none => []
  String.intercalate "_" (dayPart ++ slotPart ++ [pyLower ctype, suffix])

/-- The metadata stamping `register_component` performs on the component
dict: `component_id`, `component_type` and `registered_at`. -/
def stampData (data : JObj) (cid ctype now : String) : JObj :=
  ((data.set "component_id" (.str cid)).set "component_type"
    (.str ctype)).set "registered_at" (.str now)

/-- `component_registry.py::register_component`.  Ensures the registry
structure, stamps `component_id`, `component_type` and `registered_at` into
the component dict, and files it: top-level singleton for accommodation and
transport, day/slot for components carrying a day number.  A component of any
other type registered without a day number falls through every branch and is
filed nowhere (the id is still returned).  The wall-clock timestamp and the
uuid suffix are passed in as parameters. -/
def registerComponentR (reg? : Option Registry) (data : JObj) (ctype : String)
    (day? : Option Nat) (slot? : Option String) (suffix now : String) :
    Registry × String :=
  let reg := reg?.getD emptyRegistry
  let cid := generateComponentId ctype day? slot? suffix
  let data := stampData data cid ctype now
  if ctype = "accommodation" then ({reg with accommodation := .comp data}, cid)
  else if ctype = "transport" then ({reg with transport := .comp data}, cid)
  else
    match day? with
    | none => (reg, cid)
    | some n =>
        let dayKey := s!"day{n}"
        let dayData := (getDay reg.days dayKey).getD .nil
        let slotKey? := match slot? with
          | some s => if s ≠ "" then some (s ++ "_slot") else none
          | none => none
        match slotKey? with
        | some slotKey =>
            ({reg with days := setDay reg.days dayKey (dayData.set slotKey (.obj data))}, cid)
        | none =>
            -- the "components" key, when present, was written by this very
            -- function and therefore always holds a list
            let cur := match dayData.get "components" with
              | some (.arr a) => a.toList
              | _ => []
            let dayData := dayData.set "components" (.arr (JArr.ofList (cur ++ [.obj data])))
            ({reg with days := setDay reg.days dayKey dayData}, cid)

/-- Does this component dict carry the looked-up id
(`slot_data.get("component_id") == component_id`)? -/
def compIdMatches (o : JObj) (cid : String) : Bool :=
  o.get "component_id" == some (.str cid)

/-- Where a component lives inside the registry structure; the shallow
rendering of the string path `get_component_path` returns. -/
inductive Loc where
  | acc
  | trans
  | slot (dayKey slotKey : String)
  | item (dayKey slotKey : String) (idx : Nat)
deriving DecidableEq

/-- Scan a `"components"` list for a matching dict. -/
def findInComps (dayKey slotKey : String) (idx : Nat) :
    List JVal → String → Option (Loc × JObj)
  | [], _ => none
  | v :: t, cid =>
      match v with
      | .obj o =>
          if compIdMatches o cid then some (.item dayKey slotKey idx, o)
          else findInComps dayKey slotKey (idx + 1) t cid
      | _ => findInComps dayKey slotKey (idx + 1) t cid

/-- Scan one day's entries: slot dicts first-hand, `"components"` lists inside. -/
def findInDayData (dayKey : String) : List (String × JVal) → String → Option (Loc × JObj)
  | [], _ => none
  | (sk, sv) :: t, cid =>
      match sv with
      | .obj o =>
          if compIdMatches o cid then some (.slot dayKey sk, o)
          else findInDayData dayKey t cid
      | .arr a =>
          if sk = "components" then
            match findInComps dayKey sk 0 a.toList cid with
            | some r => some r
            | none => findInDayData dayKey t cid
          else findInDayData dayKey t cid
      | _ => findInDayData dayKey t cid

/-- Scan the day records in order. -/
def findInDays : List (String × JObj) → String → Option (Loc × JObj)
  | [], _ => none
  | (dk, dd) :: t, cid =>
      match findInDayData dk dd.toList cid with
      | some r => some r
      | none => findInDays t cid

/-- The shared scan of `get_component` and `get_component_path` (the two
functions traverse the three storage locations with identical logic and
conditions; they are embedded as the two projections of this single scan).
Python evaluates `components.get("accommodation", {}).get("component_id")`:
the `{}` default applies only when the key is MISSING, so a key holding
`None` — exactly how `new_state` and `register_component` initialize the
placeholders — raises `AttributeError`, modelled as `Except.error`. -/
def locateComponent (reg? : Option Registry) (cid : String) :
    Except String (Option (Loc × JObj)) :=
  match reg? with
  | none => .ok none
  | some reg =>
      match reg.accommodation with
      | .nullv => .error "AttributeError: NoneType object has no attribute get"
      | .comp o =>
          if compIdMatches o cid then .ok (some (.acc, o))
          else locateFromTransport reg cid
      | .absent => locateFromTransport reg cid
where
  locateFromTransport (reg : Registry) (cid : String) :
      Except String (Option (Loc × JObj)) :=
    match reg.transport with
    | .nullv => .error "AttributeError: NoneType object has no attribute get"
    | .comp o =>
        if compIdMatches o cid then .ok (some (.trans, o))
        else .ok (findInDays reg.days cid)
    | .absent => .ok (findInDays reg.days cid)

/-- `component_registry.py::get_component`. -/
def getComponentR (reg? : Option Registry) (cid : String) : Except String (Option JObj) :=
  (locateComponent reg? cid).map (·.map (·.2))

/-- `component_registry.py::get_component_path`. -/
def getComponentPathR (reg? : Option Registry) (cid : String) : Except String (Option Loc) :=
  (locateComponent reg? cid).map (·.map (·.1))

/-- Write a component dict back at a location (the effect Python achieves by
mutating the dict `get_component` returned in place). -/
def setAtLoc (reg : Registry) (loc : Loc) (o : JObj) : Registry :=
  match loc with
  | .acc => {reg with accommodation := .comp o}
  | .trans => {reg with transport := .comp o}
  | .slot dk sk =>
      let dd := (getDay reg.days dk).getD .nil
      {reg with days := setDay reg.days dk (dd.set sk (.obj o))}
  | .item dk sk i =>
      let dd := (getDay reg.days dk).getD .nil
      let l := match dd.get sk with
        | some (.arr a) => a.toList
        | _ => []
      {reg with days := setDay reg.days dk (dd.set sk (.arr (JArr.ofList (l.set i (.obj o)))))}

/-- `component_registry.py::update_component`: merge the fields into the
found component and stamp `last_modified`; `False` without touching the state
when the id is unknown. -/
def updateComponentR (reg? : Option Registry) (cid : String) (updates : JObj)
    (now : String) : Except String (Bool × Option Registry) := do
  match ← locateComponent reg? cid with
  | none => pure (false, reg?)
  | some (loc, o) =>
      if o = .nil then pure (false, reg?)
      else
        let o := (o.update updates).set "last_modified" (.str now)
        pure (true, some (setAtLoc (reg?.getD emptyRegistry) loc o))

/-- Structural removal at a location (`del current[last_key]`). -/
def deleteAtLoc (reg : Registry) (loc : Loc) : Registry :=
  match loc with
  | .acc => {reg with accommodation := .absent}
  | .trans => {reg with transport := .absent}
  | .slot dk sk =>
      let dd := (getDay reg.days dk).getD .nil
      {reg with days := setDay reg.days dk (dd.erase sk)}
  | .item dk sk i =>
      let dd := (getDay reg.days dk).getD .nil
      let l := match dd.get sk with
        | some (.arr a) => a.toList
        | _ => []
      {reg with days := setDay reg.days dk (dd.set sk (.arr (JArr.ofList (l.eraseIdx i))))}

/-- `component_registry.py::delete_component`. -/
def deleteComponentR (reg? : Option Registry) (cid : String) :
    Except String (Bool × Option Registry) := do
  match ← getComponentPathR reg? cid with
  | none => pure (false, reg?)
  | some loc => pure (true, some (deleteAtLoc (reg?.getD emptyRegistry) loc))

/-- The `current_plan` dict: the summary block and the three research
sections (`travel` / `stays` / `activities`), each an arbitrary stored value
before normalization. -/
structure PlanRaw where
  summary : JVal
  travel : JVal
  stays : JVal
  activities : JVal
deriving DecidableEq

/-- The slice of `GraphState` the verified core reads and writes. -/
structure GState where
  extractedInfo : JObj
  currentPlan : Option PlanRaw
  components : Option Registry
  uiFlags : JObj
deriving DecidableEq

/-- Normalize one research section
(`_ensure_plan_initialized`: keep `None` or a dict, reset anything else). -/
def normalizeSection (v : JVal) : JVal :=
  match v with
  | .obj o => .obj o
  | _ => .null

/-- `orchestrator.py::_ensure_plan_initialized`: default the plan container,
keep a dict summary (else `{}`), normalize the three sections. -/
def ensurePlan (p? : Option PlanRaw) : PlanRaw :=
  match p? with
  | none => ⟨.obj .nil, .null, .null, .null⟩
  | some p =>
      ⟨(match p.summary with | .obj o => .obj o | _ => .obj .nil),
       normalizeSection p.travel, normalizeSection p.stays, normalizeSection p.activities⟩

/-- `_ensure_plan_initialized` applied to the state. -/
def ensurePlanState (st : GState) : GState :=
  {st with currentPlan := some (ensurePlan st.currentPlan)}

/-- Is this value a string with non-whitespace content? -/
def isNonemptyStr : JVal → Bool
  | .str s => pyStrip s != ""
  | _ => false

/-- Is this value a non-empty list? -/
def isNonemptyList : JVal → Bool
  | .arr (.cons _ _) => true
  | _ => false

/-- `orchestrator.py::_should_merge`: accept a payload carrying non-empty
`recommendations` text or a non-empty `sources` list, or — for backwards
compatibility with the old payload structure — non-empty `summary` text or a
non-empty `results` list. -/
def shouldMerge : JVal → Bool
  | .obj p =>
      (isNonemptyStr (pyGet p "recommendations") || isNonemptyList (pyGet p "sources"))
        || (isNonemptyStr (pyGet p "summary") || isNonemptyList (pyGet p "results"))
  | _ => false

/-- One of the three research sections. -/
inductive Section where
  | travel
  | stays
  | activities
deriving DecidableEq

/-- The section's key in the plan dict and in agent patches. -/
def Section.name : Section → String
  | .travel => "travel"
  | .stays => "stays"
  | .activities => "activities"

/-- The tracked input-field subset of each section (`section_map` keys, and
the key lists passed to `compute_fp` by the staged runners). -/
def Section.keys : Section → List String
  | .travel => ["origin", "destination", "departure_date", "return_date", "trip_purpose"]
  | .stays => ["destination", "departure_date", "return_date", "trip_purpose"]
  | .activities => ["destination", "trip_purpose"]

/-- Read a section of the plan. -/
def PlanRaw.getSection (p : PlanRaw) : Section → JVal
  | .travel => p.travel
  | .stays => p.stays
  | .activities => p.activities

/-- Write a section of the plan. -/
def PlanRaw.setSection (p : PlanRaw) : Section → JVal → PlanRaw
  | .travel, v => {p with travel := v}
  | .stays, v => {p with stays := v}
  | .activities, v => {p with activities := v}

/-- The per-section readiness predicates of `_run_research`
(`_travel_ready` / `_stays_ready` / `_activities_ready`). -/
def Section.ready : Section → JObj → Bool
  | .travel, ex =>
      cleanStr (pyGet ex "origin") != "" && cleanStr (pyGet ex "destination") != ""
        && (cleanStr (pyGet ex "departure_date") != ""
            || cleanStr (pyGet ex "return_date") != ""
            || (pyGet ex "duration_days").truthy)
  | .stays, ex =>
      cleanStr (pyGet ex "destination") != "" && cleanStr (pyGet ex "departure_date") != ""
        && cleanStr (pyGet ex "return_date") != ""
  | .activities, ex => cleanStr (pyGet ex "destination") != ""

/-- A research agent as the orchestrator sees it: a function from the state
to the returned patch value (`find_travel_options` / `find_accommodation` /
`find_activities` are external LLM/search calls; the runner only inspects the
returned value). -/
def ResearchAgent : Type := GState → JVal

/-- `_run_travel_research` / `_run_stays_research` / `_run_activities_research`:
the staged research runners.  Each one ensures the plan shape, then invokes
its research agent UNCONDITIONALLY — no fingerprint appears in these
functions before the agent call — and merges the returned payload, stamping
the freshly computed fingerprint under `"_fp"`, whenever the merge gate
passes.  The three functions differ only in section name, tracked keys and
agent, so they are embedded as one definition indexed by the section.  The
returned flag records whether the external agent was invoked. -/
def runStagedResearch (sec : Section) (agent : ResearchAgent) (st : GState) :
    GState × Bool :=
  let st := ensurePlanState st
  let plan := ensurePlan st.currentPlan
  let ex := st.extractedInfo
  let patch := agent st
  let st' :=
    match patch with
    | .obj p =>
        match p.get sec.name with
        | some payload =>
            if shouldMerge payload then
              let po := match payload with
                | .obj o => o
                | _ => .nil
              let po := po.set "_fp" (.str (computeFp ex sec.keys))
              {st with currentPlan := some (plan.setSection sec (.obj po))}
            else st
        | none => st
    | _ => st
  (st', true)

/-- One section pass of the gated combined runner `_run_research`: skip when
the stored fingerprint equals the freshly computed one, skip when the
readiness predicate fails, otherwise invoke the agent and merge under the
merge gate (the combined runner copies the payload before stamping `_fp`;
functionally identical to stamping directly).  The flag records whether the
agent was invoked. -/
def runResearchStep (agent : ResearchAgent) (sec : Section) (st : GState) :
    GState × Bool :=
  let ex := st.extractedInfo
  let plan := ensurePlan st.currentPlan
  let currentFp := computeFp ex sec.keys
  let prevFp : Option JVal :=
    match plan.getSection sec with
    | .obj o => o.get "_fp"
    | _ => none
  if prevFp == some (.str currentFp) then (st, false)
  else if !sec.ready ex then (st, false)
  else
    let patch := agent st
    let st' :=
      match patch with
      | .obj p =>
          match p.get sec.name with
          | some payload =>
              if shouldMerge payload then
                let po := match payload with
                  | .obj o => o
                  | _ => .nil
                let po := po.set "_fp" (.str currentFp)
                {st with currentPlan := some (plan.setSection sec (.obj po))}
              else st
          | none => st
      | _ => st
    (st', true)

/-- `orchestrator.py::_run_research`: ensure the plan shape, then run the
three gated section passes in `section_map` order (travel, stays,
activities).  Returns the final state and the agent-invocation flag of each
section. -/
def runResearch (agents : Section → ResearchAgent) (st : GState) :
    GState × (Bool × Bool × Bool) :=
  let st0 := ensurePlanState st
  let (st1, i1) := runResearchStep (agents .travel) .travel st0
  let (st2, i2) := runResearchStep (agents .stays) .stays st1
  let (st3, i3) := runResearchStep (agents .activities) .activities st2
  (st3, (i1, i2, i3))

/-- A validated time slot of a day (`component_schemas.py::TimeSlot`): at
most one of activity / restaurant, rendered to dicts by `itinerary_to_dict`
at registration time. -/
structure SlotS where
  activity : Option JObj
  restaurant : Option JObj
deriving DecidableEq

/-- `component_schemas.py::DayItinerary`. -/
structure SDay where
  dayNumber : Nat
  theme : String
  morning : SlotS
  afternoon : SlotS
  evening : SlotS
deriving DecidableEq

/-- `component_schemas.py::StructuredItinerary` (option objects kept as the
dicts `itinerary_to_dict` produces from them). -/
structure SItin where
  metadata : JObj
  accommodationOptions : List JObj
  transportOptions : List JObj
  days : List SDay
  proTips : List String
deriving DecidableEq

/-- Stable insertion by day number (Python `sorted` is stable). -/
def insertByDayNumber (d : SDay) : List SDay → List SDay
  | [] => [d]
  | e :: t => if e.dayNumber < d.dayNumber then e :: insertByDayNumber d t else d :: e :: t

/-- `sorted(v, key=lambda d: d.day_number)`. -/
def sortDays (v : List SDay) : List SDay :=
  v.foldr insertByDayNumber []

/-- The renumbering loop `for i, day in enumerate(sorted_days, start=1)`:
force `day_number` to the enumeration index. -/
def renumberDays (i : Nat) : List SDay → List SDay
  | [] => []
  | d :: t => {d with dayNumber := i} :: renumberDays (i + 1) t

/-- `component_schemas.py::StructuredItinerary.validate_days_sequential`:
an empty list is allowed as-is; otherwise the days are sorted by their
proposed day number and forcibly renumbered `1..N`. -/
def validateDaysSequential (v : List SDay) : List SDay :=
  match v with
  | [] => []
  | _ => renumberDays 1 (sortDays v)

/-- Read a string field of a component dict, `""` when missing or non-string
(pydantic guarantees the field is a string on schema objects). -/
def getStr (o : JObj) (k : String) : String :=
  match o.get k with
  | some (.str s) => s
  | _ => ""

/-- The `hotel.get("selected", False)` value read by `compose_itinerary`
(defensively `{}` when the registry or the accommodation record is missing
or `None`). -/
def hotelSelectedVal (reg? : Option Registry) : JVal :=
  match reg? with
  | none => .bool false
  | some reg =>
      match reg.accommodation with
      | .comp o => (o.get "selected").getD (.bool false)
      | _ => .bool false

/-- Has a hotel been explicitly selected (Python truthiness of the above)? -/
def hotelSelected (reg? : Option Registry) : Bool :=
  (hotelSelectedVal reg?).truthy

/-- The transport-registration loop of `_register_structured_components`:
each option is registered as the `transport` singleton (so the last one
wins), stamped with its `option_index` and `is_primary` flag. -/
def registerTransportOptions (reg? : Option Registry) (opts : List JObj)
    (idx : Nat) (sgen : Nat → String) (fresh : Nat) (now : String) :
    Registry × Nat :=
  match opts with
  | [] => (reg?.getD emptyRegistry, fresh)
  | o :: t =>
      let data := (o.set "option_index" (.num idx)).set "is_primary" (.bool (idx = 0))
      let (reg, _) := registerComponentR reg? data "transport" none none (sgen fresh) now
      registerTransportOptions (some reg) t (idx + 1) sgen (fresh + 1) now

/-- Register one day slot (`if slot.activity: ... elif slot.restaurant: ...`). -/
def registerSlot (reg : Registry) (s : SlotS) (dayNum : Nat) (slotName : String)
    (sgen : Nat → String) (fresh : Nat) (now : String) : Registry × Nat :=
  match s.activity with
  | some a =>
      ((registerComponentR (some reg) a "activity" (some dayNum) (some slotName)
        (sgen fresh) now).1, fresh + 1)
  | none =>
      match s.restaurant with
      | some r =>
          ((registerComponentR (some reg) r "restaurant" (some dayNum) (some slotName)
            (sgen fresh) now).1, fresh + 1)
      | none => (reg, fresh)

/-- Register the three slots of each day in order. -/
def registerDays (reg : Registry) (ds : List SDay) (sgen : Nat → String)
    (fresh : Nat) (now : String) : Registry :=
  match ds with
  | [] => reg
  | d :: t =>
      let (reg, fresh) := registerSlot reg d.morning d.dayNumber "morning" sgen fresh now
      let (reg, fresh) := registerSlot reg d.afternoon d.dayNumber "afternoon" sgen fresh now
      let (reg, fresh) := registerSlot reg d.evening d.dayNumber "evening" sgen fresh now
      registerDays reg t sgen (fresh + 0) now

/-- `plan_composer_agent.py::_register_structured_components`: initialize the
component storage when missing, store the metadata, register every transport
option, register `accommodation_options[0]` as the primary accommodation with
the remaining options as its `alternatives` list and `selected=False`, then
register each day's slots.  Requires a nonempty accommodation list (pydantic
guarantees exactly 3); uuid draws come from `sgen`. -/
def registerStructuredComponents (st : GState) (it : SItin) (sgen : Nat → String)
    (now : String) : Option GState :=
  match it.accommodationOptions with
  | [] => none
  | primary :: rest =>
      let reg0 := (st.components.getD emptyRegistry)
      let reg0 := {reg0 with metadata := it.metadata}
      let (reg1, fresh1) := registerTransportOptions (some reg0) it.transportOptions 0 sgen 0 now
      let accData := (primary.set "alternatives"
        (.arr (JArr.ofList (rest.map JVal.obj)))).set "selected" (.bool false)
      let (reg2, _) := registerComponentR (some reg1) accData "accommodation" none none
        (sgen fresh1) now
      let reg3 := registerDays reg2 it.days sgen (fresh1 + 1) now
      some {st with components := some reg3}

/-- The hotel-reordering block of `compose_itinerary`: when a hotel is
selected, move the accommodation option whose name matches the selected
hotel's stripped name to the front of the options list. -/
def reorderHotels (reg? : Option Registry) (it : SItin) : SItin :=
  let nameOfSelected :=
    match reg? with
    | none => ""
    | some reg =>
        match reg.accommodation with
        | .comp o => pyStrip (getStr o "name")
        | _ => ""
  if nameOfSelected = "" ∨ it.accommodationOptions = [] then it
  else
    match it.accommodationOptions.findIdx? (fun h => pyStrip (getStr h "name") = nameOfSelected) with
    | some idx =>
        if 0 < idx then
          match it.accommodationOptions.get? idx with
          | some sel =>
              {it with accommodationOptions := sel :: it.accommodationOptions.eraseIdx idx}
          | none => it
        else it
    | none => it

/-- The post-generation slice of `plan_composer_agent.py::compose_itinerary`:
the travel-confirmed flag set while showing hotels, the SAFETY CHECK forcing
`days = []` whenever no hotel is selected, the hotel reordering when one is,
the component registration, and the plan-completion marking.  Returns the
updated state and the corrected itinerary handed to rendering, or `none` for
the (unreachable under pydantic validation) empty accommodation list. -/
def composePost (st : GState) (gen : SItin) (sgen : Nat → String) (now : String) :
    Option (GState × SItin) :=
  let hs := hotelSelected st.components
  let st := if hs then st else {st with uiFlags := st.uiFlags.set "travel_confirmed" (.bool true)}
  let it := if !hs && !gen.days.isEmpty then {gen with days := []} else gen
  let it := if hs then reorderHotels st.components it else it
  match registerStructuredComponents st it sgen now with
  | none => none
  | some st' =>
      let plan := st'.currentPlan.getD ⟨.null, .null, .null, .null⟩
      let plan :=
        if !it.transportOptions.isEmpty && !plan.travel.truthy then
          {plan with travel := .obj (JObj.ofList
            [("recommendations", .str s!"Generated {it.transportOptions.length} transport options"),
             ("sources", .arr .nil), ("_generated_by_composer", .bool true)])}
        else plan
      let plan :=
        if !hs && !it.accommodationOptions.isEmpty && !plan.stays.truthy then
          {plan with stays := .obj (JObj.ofList
            [("recommendations", .str s!"Generated {it.accommodationOptions.length} hotel options"),
             ("sources", .arr .nil), ("_generated_by_composer", .bool true)])}
        else plan
      let st' := {st' with currentPlan := some plan}
      let st' := {st' with uiFlags := st'.uiFlags.set "itinerary_presented" (.bool true)}
      some (st', it)

/-- `refinement_agent.py::detect_refinement_intent`, restricted to replies
that are a bare number (`^\s*(\d+)\s*$`, the last hotel pattern; a digits-only
message contains none of the keywords the other patterns require).  Returns
the 0-based `selection_index` for numbers 1..3, nothing otherwise. -/
def detectNumericReply (msg : String) : Option Nat :=
  let t := pyStrip msg
  if t ≠ "" ∧ t.data.all Char.isDigit then
    let n := digitsToNat t
    if 1 ≤ n ∧ n ≤ 3 then some (n - 1) else none
  else none

/-- Strip the registration stamps from a demoted alternative
(`alt.pop("component_id", None)` and friends; note `"selected"` is NOT
popped). -/
def popRegistrationStamps (v : JVal) : JVal :=
  match v with
  | .obj a => .obj (((a.erase "component_id").erase "component_type").erase "registered_at")
  | _ => v

/-- View a value as the dict Python expects it to be (list entries of
`alternatives` are always dicts in the system's flows). -/
def asObj (v : JVal) : JObj :=
  match v with
  | .obj o => o
  | _ => .nil

/-- `refinement_agent.py::handle_hotel_selection`: promote
`alternatives[selection_index]` to primary.  The new alternatives list is the
old primary followed by the remaining old alternatives, each stripped of its
registration stamps; the new primary is re-registered with `selected=True`.
Returns `False` when there is no primary accommodation or the index is out of
range. -/
def handleHotelSelection (st : GState) (selectionIndex : Nat) (suffix now : String) :
    GState × Bool :=
  let current? :=
    match st.components with
    | none => none
    | some reg =>
        match reg.accommodation with
        | .comp o => if o = JObj.nil then none else some o
        | _ => none
  match current? with
  | none => (st, false)
  | some current =>
      let alternatives :=
        match (current.get "alternatives").getD (.arr .nil) with
        | .arr a => a.toList
        | _ => []
      if h : selectionIndex < alternatives.length then
        let selected := asObj (alternatives.get ⟨selectionIndex, h⟩)
        let newAlternatives :=
          ((JVal.obj current :: alternatives.take selectionIndex)
            ++ alternatives.drop (selectionIndex + 1)).map popRegistrationStamps
        let data : JObj := JObj.ofList
          [("name", (selected.get "name").getD (.str "Hotel")),
           ("description", (selected.get "description").getD (.str "")),
           ("price_range", (selected.get "price").getD (.str "")),
           ("features", (selected.get "features").getD (.arr .nil)),
           ("alternatives", .arr (JArr.ofList newAlternatives)),
           ("selected", .bool true)]
        let (reg', _) := registerComponentR st.components data "accommodation" none none suffix now
        ({st with components := some reg'}, true)
      else (st, false)

/-- Number of accommodation objects in the registered record — the primary
and the entries of its `alternatives` list — whose `selected` field is
truthy. -/
def countSelected (reg? : Option Registry) : Nat :=
  match reg? with
  | none => 0
  | some reg =>
      match reg.accommodation with
      | .comp o =>
          let primary := if (pyGet o "selected").truthy then 1 else 0
          let alts :=
            match o.get "alternatives" with
            | some (.arr a) => (a.toList.filter (fun v => (pyGet (asObj v) "selected").truthy)).length
            | _ => 0
          primary + alts
      | _ => 0

/-- Does the primary accommodation itself occur in its own `alternatives`
list (compared as dict values, the shallow rendering of Python `in`)? -/
def primaryInOwnAlternatives (reg? : Option Registry) : Bool :=
  match reg? with
  | none => false
  | some reg =>
      match reg.accommodation with
      | .comp o =>
          (match o.get "alternatives" with
           | some (.arr a) => a.toList.any (fun v => v == .obj o)
           | _ => false)
      | _ => false

/-- The state slice `suggest_destinations` reads and writes:
`extracted_info["destination"]` and the `tool_results["discovery"]` record. -/
structure DiscState where
  destination : JVal
  cycleCount : Nat
  resolved : Bool
  shownDestinations : List String
deriving DecidableEq

/-- The intent classification returned by the LLM interpreter
(`_interpret_user_intent`): an action plus the destination it extracted. -/
inductive DiscIntent where
  | confirmed (dest : String)
  | needsOptions
  | wantsMore
  | unclear
deriving DecidableEq

/-- Which user-facing message the discovery step emits. -/
inductive DiscMsg where
  | noneMsg
  | maxCyclesPrompt
  | confirmedMsg (dest : String)
  | optionsMsg
  | searchFailedMsg
  | unclearMsg
deriving DecidableEq

/-- `destination_discovery_agent.py::MAX_CYCLES`. -/
def maxCycles : Nat := 3

/-- `destination_discovery_agent.py::suggest_destinations`, one turn: if a
destination is already set, mark resolved; if the cycle count has reached
`MAX_CYCLES`, emit the be-more-specific prompt WITHOUT searching; otherwise
act on the interpreted intent — a confirmed non-empty destination patches the
state, `needs_options`/`wants_more` increments the cycle count and issues a
search (whose results are passed in as `searchResults`), anything else asks
for clarification.  The returned flag records whether a search was issued. -/
def suggestDestinationsStep (st : DiscState) (intent : DiscIntent)
    (searchResults : List (String × String)) : DiscState × Bool × DiscMsg :=
  if st.destination.truthy then ({st with resolved := true}, false, .noneMsg)
  else if maxCycles ≤ st.cycleCount then (st, false, .maxCyclesPrompt)
  else
    match intent with
    | .confirmed dest =>
        if dest ≠ "" then
          ({st with destination := .str dest, resolved := true}, false, .confirmedMsg dest)
        else (st, false, .unclearMsg)
    | .needsOptions =>
        discSearchBranch st searchResults
    | .wantsMore =>
        discSearchBranch st searchResults
    | .unclear => (st, false, .unclearMsg)
where
  discSearchBranch (st : DiscState) (searchResults : List (String × String)) :
      DiscState × Bool × DiscMsg :=
    let st := {st with cycleCount := st.cycleCount + 1}
    match searchResults with
    | [] => (st, true, .searchFailedMsg)
    | _ =>
        ({st with shownDestinations := st.shownDestinations ++ searchResults.map (·.1),
                  resolved := false}, true, .optionsMsg)

/-- Run a sequence of discovery turns, counting the searches issued. -/
def runDiscovery (st : DiscState) :
    List (DiscIntent × List (String × String)) → DiscState × Nat
  | [] => (st, 0)
  | (intent, results) :: t =>
      let (st', searched, _) := suggestDestinationsStep st intent results
      let (stEnd, n) := runDiscovery st' t
      (stEnd, (if searched then 1 else 0) + n)

/-- Read a research section of a state's plan, through the normalization the
orchestrator applies (`_ensure_plan_initialized`). -/
def planSection (st : GState) (sec : Section) : JVal :=
  (ensurePlan st.currentPlan).getSection sec

/-- Project the agent-invocation flag of one section out of `runResearch`'s
flag triple. -/
def invokedFlag (fl : Bool × Bool × Bool) : Section → Bool
  | .travel => fl.1
  | .stays => fl.2.1
  | .activities => fl.2.2

/-- A singleton entry neither crashes the scan nor matches the id: the key is
missing, or holds a component dict with a different id. -/
def entryMissesId (e : REntry) (cid : String) : Bool :=
  match e with
  | .nullv => false
  | .absent => true
  | .comp o => !compIdMatches o cid

/-- The full component scan passes every location without crashing and
without a match. -/
def scanClean (reg : Registry) (cid : String) : Bool :=
  entryMissesId reg.accommodation cid && entryMissesId reg.transport cid
    && (findInDays reg.days cid == none)

/-- The registered primary accommodation record, when one is stored. -/
def primaryAccommodation (reg? : Option Registry) : Option JObj :=
  match reg? with
  | none => none
  | some reg =>
      match reg.accommodation with
      | .comp o => some o
      | _ => none

/-- The keys of a dict in insertion order. -/
def keysOf (o : JObj) : List String := o.toList.map Prod.fst

/-- Concrete `extracted_info` for a gated research scenario. -/
def exParis : JObj := JObj.ofList
  [("origin", .str "Seattle"), ("destination", .str "Paris"),
   ("departure_date", .str "2026-06-01"), ("return_date", .str "2026-06-08"),
   ("trip_purpose", .str "family vacation")]

/-- A previously merged stays payload whose stored fingerprint equals the one
freshly computed from `exParis` over the stays key subset. -/
def staysPayloadOld : JObj := JObj.ofList
  [("recommendations", .str "Stay near the river."),
   ("sources", .arr (.cons (.obj (JObj.ofList
      [("title", .str "Guide"), ("url", .str "https://example.com")])) .nil)),
   ("_fp", .str (computeFp exParis Section.stays.keys))]

/-- A state whose stays section is populated and fingerprint-fresh. -/
def stGated : GState :=
  ⟨exParis, some ⟨.obj .nil, .null, .obj staysPayloadOld, .null⟩, none, .nil⟩

/-- A fresh (different) stays payload an external agent might return. -/
def newStaysPayload : JObj := JObj.ofList
  [("recommendations", .str "Completely different hotels."), ("sources", .arr .nil)]

/-- An external stays agent that always returns the fresh payload. -/
def agentNewStays : ResearchAgent := fun _ => .obj (JObj.ofList [("stays", .obj newStaysPayload)])

/-- A patch payload with empty `recommendations` and empty `sources` but a
non-empty legacy `summary` field. -/
def legacyPayload : JObj := JObj.ofList
  [("recommendations", .str ""), ("sources", .arr .nil),
   ("summary", .str "legacy summary text")]

/-- An external stays agent returning the legacy-shaped payload. -/
def agentLegacy : ResearchAgent := fun _ => .obj (JObj.ofList [("stays", .obj legacyPayload)])

/-- Concrete hotel option dicts as `itinerary_to_dict` would produce them. -/
def hotelA : JObj := JObj.ofList
  [("name", .str "Grand Hotel"), ("description", .str "Central."),
   ("price_per_night", .num 210), ("features", .arr .nil), ("location", .str "Downtown")]

/-- Second displayed hotel option. -/
def hotelB : JObj := JObj.ofList
  [("name", .str "Budget Inn"), ("description", .str "Cheap."),
   ("price_per_night", .num 90), ("features", .arr .nil), ("location", .str "Suburb")]

/-- Third displayed hotel option. -/
def hotelC : JObj := JObj.ofList
  [("name", .str "Sea View"), ("description", .str "Coastal."),
   ("price_per_night", .num 150), ("features", .arr .nil), ("location", .str "Coast")]

/-- A deterministic stand-in for the uuid suffix stream. -/
def sgenU : Nat → String := fun n => "u" ++ toString n

/-- A composed itinerary presenting the three hotels (days intentionally
pre-selection empty, one transport option). -/
def itThreeHotels : SItin :=
  ⟨JObj.ofList [("destination", .str "Paris")], [hotelA, hotelB, hotelC],
   [JObj.ofList [("mode", .str "flying")]], [], []⟩

/-- A pristine conversation state slice. -/
def stBlank : GState := ⟨.nil, none, none, .nil⟩

/-- The state right after the composer registers the three displayed hotels
(first stored as primary, hotels 2 and 3 as the alternatives). -/
def stAfterCompose : GState :=
  (registerStructuredComponents stBlank itThreeHotels sgenU "T0").getD stBlank

/-- The state after the user's first hotel-selection refinement (index 0). -/
def stSel1 : GState := (handleHotelSelection stAfterCompose 0 "s1" "T1").1

/-- The state after a second hotel-selection refinement (index 0 again). -/
def stSel2 : GState := (handleHotelSelection stSel1 0 "s2" "T2").1

/-- A stored accommodation component with a stamped id. -/
def accStored : JObj := JObj.ofList
  [("name", .str "Harbor Hotel"), ("component_id", .str "accommodation_a1"),
   ("component_type", .str "accommodation"), ("registered_at", .str "T0")]

/-- A stored transport component with a stamped id. -/
def transStored : JObj := JObj.ofList
  [("mode", .str "driving"), ("component_id", .str "transport_t1"),
   ("component_type", .str "transport"), ("registered_at", .str "T0")]

/-- A registry whose two singletons are real records (no `None`
placeholders) and whose day map is empty. -/
def regTwoSingles : Registry := ⟨.nil, .comp accStored, .comp transStored, []⟩

/-- A day-less activity registration attempt on that registry. -/
def kayakData : JObj := JObj.ofList [("name", .str "Kayaking")]

/-- A sample activity slot for composer scenarios. -/
def slotZoo : SlotS := ⟨some (JObj.ofList [("name", .str "Zoo"), ("type", .str "attraction")]), none⟩

/-- A generated day the LLM might propose despite instructions. -/
def dayFive : SDay := ⟨5, "Wildlife", slotZoo, slotZoo, slotZoo⟩

/-- A generated itinerary that wrongly carries a day before hotel selection. -/
def itWithStrayDay : SItin :=
  ⟨JObj.ofList [("destination", .str "Paris")], [hotelA, hotelB, hotelC],
   [JObj.ofList [("mode", .str "flying")]], [dayFive], []⟩

/-- The initial discovery-state slice of a fresh conversation. -/
def discStart : DiscState := ⟨.null, 0, false, []⟩

/-- Five consecutive show-me-something-different turns, each with a
non-empty search result. -/
def discRunFive : List (DiscIntent × List (String × String)) :=
  List.replicate 5 (.wantsMore, [("Lisbon", "coastal city")])

/-- Fields mapping with an extraneous key and sentinel noise. -/
def exNoisy : JObj := JObj.ofList
  [("destination", .str " Paris "), ("junk", .str "x"), ("origin", .str "NULL")]

/-- The same tracked content with the noise stripped and reordered, the
extraneous key replaced by others. -/
def exCleaned : JObj := JObj.ofList
  [("other", .num 7), ("destination", .str "Paris")]

/-- A two-entry mapping with distinct keys. -/
def exPermA : JObj := JObj.ofList [("a", .str "1"), ("b", .str "2")]

/-- The same mapping with the entries swapped. -/
def exPermB : JObj := JObj.ofList [("b", .str "2"), ("a", .str "1")]


/-- Structural induction for `JObj` alone (the mutual recursor has several
motives, so the list-like principle is stated separately). -/
theorem JObj.induct {motive : JObj → Prop} (hnil : motive .nil)
    (hcons : ∀ k v t, motive t → motive (.cons k v t)) : ∀ o, motive o
  | .nil => hnil
  | .cons k v t => hcons k v t (JObj.induct hnil hcons t)

@[simp] theorem JObj.get_nil (k : String) : JObj.nil.get k = none := rfl

@[simp] theorem JObj.get_set_self (o : JObj) (k : String) (v : JVal) :
    (o.set k v).get k = some v := by
  induction o using JObj.induct with
  | hnil => simp [JObj.set, JObj.get]
  | hcons k' w t ih =>
      by_cases h : k' = k
      · simp [JObj.set, JObj.get, h]
      · simp [JObj.set, JObj.get, h, ih]

theorem JObj.get_set_ne (o : JObj) (k k' : String) (v : JVal) (h : k ≠ k') :
    (o.set k v).get k' = o.get k' := by
  induction o using JObj.induct with
  | hnil => simp [JObj.set, JObj.get, h]
  | hcons k0 w t ih =>
      by_cases h0 : k0 = k
      · subst h0
        simp [JObj.set, JObj.get, h]
      · simp only [JObj.set, if_neg h0]
        by_cases h1 : k0 = k'
        · simp [JObj.get, h1]
        · simp [JObj.get, h1, ih]

theorem foldl_set_get (g : String → JVal) (keys : List String) (acc : JObj) (k : String) :
    (keys.foldl (fun o k' => o.set k' (g k')) acc).get k
      = if k ∈ keys then some (g k) else acc.get k := by
  induction keys generalizing acc with
  | nil => simp
  | cons k0 t ih =>
      simp only [List.foldl_cons]
      rw [ih]
      by_cases hk : k ∈ t
      · simp [hk]
      · by_cases he : k = k0
        · subst he
          simp [hk]
        · simp [hk, he, JObj.get_set_ne _ _ _ _ (Ne.symm he)]

theorem fpSubset_get (ex : JObj) (keys : List String) (k : String) :
    (fpSubset ex keys).get k
      = if k ∈ keys then some (normalizeValue (pyGet ex k)) else none := by
  unfold fpSubset
  exact foldl_set_get (fun k' => normalizeValue (pyGet ex k')) keys .nil k

theorem fpSubset_congr (ex ex' : JObj) (keys : List String)
    (h : ∀ k ∈ keys, normalizeValue (pyGet ex k) = normalizeValue (pyGet ex' k)) :
    fpSubset ex keys = fpSubset ex' keys := by
  unfold fpSubset
  suffices hgen : ∀ (l : List String) (acc : JObj),
      (∀ k ∈ l, normalizeValue (pyGet ex k) = normalizeValue (pyGet ex' k)) →
      l.foldl (fun o k => o.set k (normalizeValue (pyGet ex k))) acc
        = l.foldl (fun o k => o.set k (normalizeValue (pyGet ex' k))) acc by
    exact hgen keys .nil h
  intro l
  induction l with
  | nil => intro acc _; rfl
  | cons k0 t ih =>
      intro acc hall
      simp only [List.foldl_cons]
      rw [hall k0 (by simp), ih _ (fun k hk => hall k (by simp [hk]))]

theorem computeFp_congr (ex ex' : JObj) (keys : List String)
    (h : ∀ k ∈ keys, normalizeValue (pyGet ex k) = normalizeValue (pyGet ex' k)) :
    computeFp ex keys = computeFp ex' keys := by
  unfold computeFp
  rw [fpSubset_congr ex ex' keys h]

theorem JObj.get_eq_some_of_mem (o : JObj) (k : String) (v : JVal)
    (hnd : (keysOf o).Nodup) (hm : (k, v) ∈ o.toList) : o.get k = some v := by
  induction o using JObj.induct with
  | hnil => simp [JObj.toList] at hm
  | hcons k0 w t ih =>
      simp only [JObj.toList, List.mem_cons] at hm
      simp only [keysOf, JObj.toList, List.map_cons, List.nodup_cons] at hnd
      rcases hm with h | h
      · rw [Prod.ext_iff] at h
        obtain ⟨hk, hv⟩ := h
        simp only [] at hk hv
        simp [JObj.get, hk.symm, hv]
      · have hk0 : k0 ≠ k := by
          intro he
          exact hnd.1 (he ▸ (List.mem_map.mpr ⟨(k, v), h, rfl⟩))
        simp [JObj.get, hk0, ih (by simpa [keysOf] using hnd.2) h]

theorem JObj.mem_of_get_eq_some (o : JObj) (k : String) (v : JVal)
    (hg : o.get k = some v) : (k, v) ∈ o.toList := by
  induction o using JObj.induct with
  | hnil => simp [JObj.get] at hg
  | hcons k0 w t ih =>
      simp only [JObj.get] at hg
      by_cases h : k0 = k
      · simp only [if_pos h] at hg
        subst h
        simp only [JObj.toList, List.mem_cons]
        left
        injection hg with hg
        rw [hg]
      · simp only [if_neg h] at hg
        simp [JObj.toList, ih hg]

theorem JObj.get_eq_none_iff (o : JObj) (k : String) :
    o.get k = none ↔ k ∉ keysOf o := by
  induction o using JObj.induct with
  | hnil => simp [JObj.get, keysOf, JObj.toList]
  | hcons k0 w t ih =>
      by_cases h : k0 = k
      · simp [JObj.get, h, keysOf, JObj.toList]
      · simp only [JObj.get, if_neg h, keysOf, JObj.toList, List.map_cons, List.mem_cons]
        rw [show (t.toList.map Prod.fst = keysOf t) from rfl] at *
        simp [ih, h, Ne.symm h]

theorem JObj.get_perm (o o' : JObj) (hp : o.toList.Perm o'.toList)
    (hnd : (keysOf o).Nodup) (k : String) : o.get k = o'.get k := by
  have hp' : (keysOf o).Perm (keysOf o') := hp.map Prod.fst
  have hnd' : (keysOf o').Nodup := hp'.nodup_iff.mp hnd
  cases hg : o.get k with
  | some v =>
      exact (JObj.get_eq_some_of_mem o' k v hnd' (hp.mem_iff.mp
        (JObj.mem_of_get_eq_some o k v hg))).symm
  | none =>
      symm
      rw [JObj.get_eq_none_iff]
      intro hk
      exact ((JObj.get_eq_none_iff o k).mp hg) (hp'.mem_iff.mpr hk)

theorem renumberDays_map (i : Nat) (l : List SDay) :
    (renumberDays i l).map (fun d => d.dayNumber) = List.range' i l.length := by
  induction l generalizing i with
  | nil => simp [renumberDays]
  | cons d t ih => simp [renumberDays, List.range'_succ, ih]

theorem insertByDayNumber_length (d : SDay) (l : List SDay) :
    (insertByDayNumber d l).length = l.length + 1 := by
  induction l with
  | nil => rfl
  | cons e t ih =>
      by_cases h : e.dayNumber < d.dayNumber
      · simp [insertByDayNumber, h, ih]
      · simp [insertByDayNumber, h]

theorem sortDays_length (v : List SDay) : (sortDays v).length = v.length := by
  induction v with
  | nil => rfl
  | cons d t ih => simp [sortDays, insertByDayNumber_length, List.foldr] at *; omega

/-- C9.  Day contiguity: for every list of day entries the itinerary
validator accepts, the resulting day numbers are exactly `1..N` — contiguous
from 1, with no gaps and no duplicates — regardless of the day numbers the
generation step proposed (`StructuredItinerary.validate_days_sequential`
sorts the proposed days and forcibly renumbers them). -/
theorem validator_days_contiguous (v : List SDay) :
    (validateDaysSequential v).map (fun d => d.dayNumber) = List.range' 1 v.length := by
  unfold validateDaysSequential
  match v with
  | [] => rfl
  | d :: t =>
      rw [renumberDays_map]
      rw [show (sortDays (d :: t)).length = (d :: t).length from sortDays_length _]

theorem suggestStep_cycle (st : DiscState) (intent : DiscIntent)
    (results : List (String × String)) :
    ((suggestDestinationsStep st intent results).1.cycleCount
        = st.cycleCount + (if (suggestDestinationsStep st intent results).2.1 then 1 else 0))
      ∧ ((suggestDestinationsStep st intent results).2.1 = true → st.cycleCount < 3) := by
  unfold suggestDestinationsStep suggestDestinationsStep.discSearchBranch
  by_cases hd : st.destination.truthy
  · simp [hd]
  · by_cases hc : maxCycles ≤ st.cycleCount
    · simp [hd, hc]
    · have hlt : st.cycleCount < 3 := by simpa [maxCycles] using hc
      cases intent with
      | confirmed dest =>
          by_cases hde : dest ≠ "" <;> simp [hd, hc, hde]
      | needsOptions => cases results <;> simp [hd, hc, hlt]
      | wantsMore => cases results <;> simp [hd, hc, hlt]
      | unclear => simp [hd, hc]

theorem runDiscovery_le (l : List (DiscIntent × List (String × String)))
    (st : DiscState) : (runDiscovery st l).2 ≤ 3 - st.cycleCount := by
  induction l generalizing st with
  | nil => simp [runDiscovery]
  | cons p t ih =>
      obtain ⟨intent, results⟩ := p
      simp only [runDiscovery]
      obtain ⟨h1, h2⟩ := suggestStep_cycle st intent results
      rcases hx : suggestDestinationsStep st intent results with ⟨st', searched, msg⟩
      rw [hx] at h1 h2
      simp only at h1 h2
      have h3 := ih st'
      cases searched with
      | true =>
          have h4 : st.cycleCount < 3 := h2 rfl
          simp only [hx]
          simp at h1 ⊢
          omega
      | false =>
          simp only [hx]
          simp at h1 ⊢
          omega

/-- C8.  Destination-discovery cycle cap: a discovery turn that starts with
no destination set and a cycle count at the maximum (3) issues no search and
emits the be-more-specific prompt, leaving the state untouched; and any run
of discovery turns from a fresh conversation (cycle count 0) issues at most 3
searches in total. -/
theorem discovery_cycle_cap :
    (∀ (st : DiscState) (intent : DiscIntent) (results : List (String × String)),
        st.destination.truthy = false → 3 ≤ st.cycleCount →
        suggestDestinationsStep st intent results = (st, false, .maxCyclesPrompt)) ∧
    (∀ (st : DiscState) (l : List (DiscIntent × List (String × String))),
        st.cycleCount = 0 → (runDiscovery st l).2 ≤ 3) := by
  constructor
  · intro st intent results hd hc
    simp [suggestDestinationsStep, hd, maxCycles, hc]
  · intro st l h0
    have := runDiscovery_le l st
    omega

/-- Witness for C8 at concrete inputs: a capped state answers the
be-more-specific prompt without searching, and five consecutive
show-me-more turns from a fresh state issue at most 3 searches. -/
theorem discovery_cycle_cap_witness :
    suggestDestinationsStep ⟨.null, 3, false, []⟩ .wantsMore [("Lisbon", "x")]
      = (⟨.null, 3, false, []⟩, false, .maxCyclesPrompt) ∧
    (runDiscovery discStart discRunFive).2 ≤ 3 :=
  ⟨discovery_cycle_cap.1 ⟨.null, 3, false, []⟩ .wantsMore [("Lisbon", "x")] rfl (by decide),
   discovery_cycle_cap.2 discStart discRunFive rfl⟩

theorem w32_lt (x : Nat) : w32 x < 4294967296 := Nat.mod_lt _ (by norm_num)

theorem sha1Digest_lt (msg : List Nat) : sha1Digest msg < 2 ^ 160 := by
  have key : ∀ s : Sha1State, w32 s.h0 * 2 ^ 128 + w32 s.h1 * 2 ^ 96 + w32 s.h2 * 2 ^ 64
      + w32 s.h3 * 2 ^ 32 + w32 s.h4 < 2 ^ 160 := by
    intro s
    have b0 := w32_lt s.h0
    have b1 := w32_lt s.h1
    have b2 := w32_lt s.h2
    have b3 := w32_lt s.h3
    have b4 := w32_lt s.h4
    have e32 : (2 : Nat) ^ 32 = 4294967296 := by norm_num
    have e64 : (2 : Nat) ^ 64 = 18446744073709551616 := by norm_num
    have e96 : (2 : Nat) ^ 96 = 79228162514264337593543950336 := by norm_num
    have e128 : (2 : Nat) ^ 128 = 340282366920938463463374607431768211456 := by norm_num
    have e160 : (2 : Nat) ^ 160 =
      1461501637330902918203684832716283019655932542976 := by norm_num
    rw [e32, e64, e96, e128, e160]
    omega
  exact key _

/-- C5 counterexample.  The claim "changing a tracked key's meaningful
(non-sentinel) value changes the output" is false for `compute_fp` as
written: the fingerprint is a 160-bit SHA-1 digest, so the infinitely many
meaningful values of a tracked key cannot all hash differently — two distinct
(non-sentinel) integer values of the tracked key `destination` must share a
fingerprint.  (The collision exists by pigeonhole; no feasible concrete pair
is known, which is exactly why the property holds only up to SHA-1 collision
resistance.) -/
theorem computeFp_meaningful_change_cex :
    ¬ (∀ (a b : Int),
        normalizeValue (.num a) ≠ .null → normalizeValue (.num b) ≠ .null → a ≠ b →
        computeFp (JObj.cons "destination" (.num a) .nil) ["destination"]
          ≠ computeFp (JObj.cons "destination" (.num b) .nil) ["destination"]) := by
  intro hinj
  let F : Int → Fin (2 ^ 160) := fun n =>
    ⟨sha1Digest (utf8Bytes (jsonDumps
        (.obj (fpSubset (JObj.cons "destination" (.num n) .nil) ["destination"])))),
     sha1Digest_lt _⟩
  obtain ⟨a, b, hab, hFab⟩ := Finite.exists_ne_map_eq_of_infinite F
  apply hinj a b (by simp [normalizeValue]) (by simp [normalizeValue]) hab
  have hv : (F a).val = (F b).val := congrArg Fin.val hFab
  simp only [F] at hv
  unfold computeFp sha1Hex
  rw [hv]

/-- C5 (amended).  Fingerprint determinism, as it actually holds:
(1) the fingerprint depends only on the normalized values of the tracked
keys, so adding, removing or changing untracked fields — and swapping any
tracked value among the sentinel forms — never changes it;
(2) it is invariant under permutation of the field mapping (unique keys);
(3) `None`, whitespace-padded `""` and any-case `"null"` strings, and absent
keys all normalize to the same canonical empty marker;
(4) changing a tracked key's meaningful value changes the normalized subset
serialized into the hash preimage (so the output changes whenever SHA-1 does
not collide on the two payloads — but not unconditionally, see the
counterexample). -/
theorem computeFp_determinism :
    (∀ (ex ex' : JObj) (keys : List String),
        (∀ k ∈ keys, normalizeValue (pyGet ex k) = normalizeValue (pyGet ex' k)) →
        computeFp ex keys = computeFp ex' keys) ∧
    (∀ (ex ex' : JObj) (keys : List String), ex.toList.Perm ex'.toList →
        (keysOf ex).Nodup → computeFp ex keys = computeFp ex' keys) ∧
    (normalizeValue .null = .null ∧
      (∀ s : String, pyStrip s = "" ∨ pyLower (pyStrip s) = "null" →
        normalizeValue (.str s) = .null) ∧
      (∀ (ex : JObj) (k : String), ex.get k = none → pyGet ex k = .null)) ∧
    (∀ (ex : JObj) (keys : List String) (k : String) (v' : JVal), k ∈ keys →
        normalizeValue (pyGet ex k) ≠ normalizeValue v' →
        fpSubset (ex.set k v') keys ≠ fpSubset ex keys) := by
  refine ⟨computeFp_congr, ?_, ⟨rfl, ?_, ?_⟩, ?_⟩
  · intro ex ex' keys hp hnd
    exact computeFp_congr ex ex' keys
      (fun k _ => by rw [pyGet, pyGet, JObj.get_perm ex ex' hp hnd k])
  · intro s hs
    simp [normalizeValue, hs]
  · intro ex k h
    simp [pyGet, h]
  · intro ex keys k v' hk hne heq
    have hg := congrArg (fun o => JObj.get o k) heq
    simp only [fpSubset_get, if_pos hk] at hg
    apply hne
    have hpy : pyGet (ex.set k v') k = v' := by simp [pyGet]
    rw [hpy] at hg
    injection hg with hg
    rw [hg]

/-- Witness for C5 at concrete inputs: sentinel noise, extraneous fields and
entry order do not change the fingerprint; a meaningful change to a tracked
value changes the hashed subset. -/
theorem computeFp_determinism_witness :
    computeFp exNoisy ["destination", "origin"] = computeFp exCleaned ["destination", "origin"] ∧
    computeFp exPermA ["a", "b"] = computeFp exPermB ["a", "b"] ∧
    fpSubset (exCleaned.set "destination" (.str "Rome")) ["destination"]
      ≠ fpSubset exCleaned ["destination"] :=
  ⟨computeFp_determinism.1 exNoisy exCleaned ["destination", "origin"] (by decide),
   computeFp_determinism.2.1 exPermA exPermB ["a", "b"] (by decide) (by decide),
   computeFp_determinism.2.2.2 exCleaned ["destination"] "destination" (.str "Rome")
     (by decide) (by decide)⟩

theorem normalizeSection_idem (v : JVal) :
    normalizeSection (normalizeSection v) = normalizeSection v := by
  cases v <;> rfl

theorem ensurePlan_idem (p? : Option PlanRaw) :
    ensurePlan (some (ensurePlan p?)) = ensurePlan p? := by
  cases p? with
  | none => rfl
  | some p =>
      obtain ⟨s, t, u, a⟩ := p
      simp only [ensurePlan, PlanRaw.mk.injEq]
      exact ⟨by cases s <;> rfl, normalizeSection_idem t, normalizeSection_idem u,
        normalizeSection_idem a⟩

theorem getSection_setSection_ne (p : PlanRaw) (sec sec' : Section) (v : JVal)
    (h : sec' ≠ sec) : (p.setSection sec v).getSection sec' = p.getSection sec' := by
  cases sec <;> cases sec' <;> first
    | exact absurd rfl h
    | rfl

@[simp] theorem getSection_setSection_self (p : PlanRaw) (sec : Section) (v : JVal) :
    (p.setSection sec v).getSection sec = v := by
  cases sec <;> rfl

theorem ensurePlan_setSection_obj (q : Option PlanRaw) (sec : Section) (po : JObj) :
    ensurePlan (some ((ensurePlan q).setSection sec (.obj po)))
      = (ensurePlan q).setSection sec (.obj po) := by
  have hP := ensurePlan_idem q
  obtain ⟨hs, ht, hu, ha⟩ := PlanRaw.mk.injEq .. ▸ congrArg id hP
  cases sec <;>
    · simp only [PlanRaw.setSection, ensurePlan, PlanRaw.mk.injEq] at *
      refine ⟨?_, ?_, ?_, ?_⟩ <;> first
        | rfl
        | assumption

theorem runResearchStep_gated (agent : ResearchAgent) (sec : Section) (st : GState)
    (p : JObj) (hsec : planSection st sec = .obj p)
    (hfp : p.get "_fp" = some (.str (computeFp st.extractedInfo sec.keys))) :
    runResearchStep agent sec st = (st, false) := by
  unfold runResearchStep
  simp only [planSection] at hsec
  simp only [hsec, hfp]
  simp

theorem runResearchStep_preserves (agent : ResearchAgent) (sec : Section) (st : GState)
    (sec' : Section) (hne : sec' ≠ sec) :
    planSection (runResearchStep agent sec st).1 sec' = planSection st sec'
      ∧ (runResearchStep agent sec st).1.extractedInfo = st.extractedInfo := by
  unfold runResearchStep
  simp only []
  split
  · exact ⟨rfl, rfl⟩
  · split
    · exact ⟨rfl, rfl⟩
    · split
      · split
        · split
          · constructor
            · simp only [planSection, ensurePlan_setSection_obj]
              rw [getSection_setSection_ne _ _ _ _ hne]
            · rfl
          · exact ⟨rfl, rfl⟩
        · exact ⟨rfl, rfl⟩
      · exact ⟨rfl, rfl⟩

/-- C1 (amended).  Fingerprint-gate idempotence holds for the combined runner
`_run_research` only: for any section whose stored payload carries a
fingerprint equal to the one freshly computed from that section's tracked
input-field subset, the combined runner does not invoke that section's
external agent and leaves the stored payload unchanged — for every possible
agent behaviour.  The staged per-section runners
(`_run_travel_research` / `_run_stays_research` / `_run_activities_research`)
contain no fingerprint gate and invoke their agent unconditionally. -/
theorem research_gate_idempotent :
    (∀ (agents : Section → ResearchAgent) (st : GState) (sec : Section) (p : JObj),
        planSection st sec = .obj p →
        p.get "_fp" = some (.str (computeFp st.extractedInfo sec.keys)) →
        invokedFlag (runResearch agents st).2 sec = false ∧
          planSection (runResearch agents st).1 sec = .obj p) ∧
    (∀ (sec : Section) (agent : ResearchAgent) (st : GState),
        (runStagedResearch sec agent st).2 = true) := by
  constructor
  · intro agents st sec p hsec hfp
    have hex0 : (ensurePlanState st).extractedInfo = st.extractedInfo := rfl
    have hps0 : ∀ s, planSection (ensurePlanState st) s = planSection st s := by
      intro s
      simp [planSection, ensurePlanState, ensurePlan_idem]
    cases sec with
    | travel =>
        have hgate := runResearchStep_gated (agents .travel) .travel (ensurePlanState st) p
          (by rw [hps0]; exact hsec) (by rw [hex0]; exact hfp)
        unfold runResearch
        rcases h2 : runResearchStep (agents .stays) .stays (ensurePlanState st) with ⟨st2, i2⟩
        rcases h3 : runResearchStep (agents .activities) .activities st2 with ⟨st3, i3⟩
        have hp2 := (runResearchStep_preserves (agents .stays) .stays (ensurePlanState st)
          .travel (by decide)).1
        have hp3 := (runResearchStep_preserves (agents .activities) .activities st2
          .travel (by decide)).1
        rw [h2] at hp2
        rw [h3] at hp3
        simp only [hgate, h2, h3, invokedFlag]
        exact ⟨trivial, by rw [hp3, hp2, hps0]; exact hsec⟩
    | stays =>
        rcases h1 : runResearchStep (agents .travel) .travel (ensurePlanState st) with ⟨st1, i1⟩
        have hp1 := runResearchStep_preserves (agents .travel) .travel (ensurePlanState st)
          .stays (by decide)
        rw [h1] at hp1
        have hgate := runResearchStep_gated (agents .stays) .stays st1 p
          (by rw [hp1.1, hps0]; exact hsec) (by rw [hp1.2, hex0]; exact hfp)
        unfold runResearch
        rcases h3 : runResearchStep (agents .activities) .activities st1 with ⟨st3, i3⟩
        have hp3 := (runResearchStep_preserves (agents .activities) .activities st1
          .stays (by decide)).1
        rw [h3] at hp3
        simp only [h1, hgate, h3, invokedFlag]
        exact ⟨trivial, by rw [hp3, hp1.1, hps0]; exact hsec⟩
    | activities =>
        rcases h1 : runResearchStep (agents .travel) .travel (ensurePlanState st) with ⟨st1, i1⟩
        have hp1 := runResearchStep_preserves (agents .travel) .travel (ensurePlanState st)
          .activities (by decide)
        rw [h1] at hp1
        rcases h2 : runResearchStep (agents .stays) .stays st1 with ⟨st2, i2⟩
        have hp2 := runResearchStep_preserves (agents .stays) .stays st1 .activities (by decide)
        rw [h2] at hp2
        have hgate := runResearchStep_gated (agents .activities) .activities st2 p
          (by rw [hp2.1, hp1.1, hps0]; exact hsec) (by rw [hp2.2, hp1.2, hex0]; exact hfp)
        unfold runResearch
        simp only [h1, h2, hgate, invokedFlag]
        exact ⟨trivial, by rw [hp2.1, hp1.1, hps0]; exact hsec⟩
  · intro sec agent st
    rfl

/-- C1 counterexample.  The staged stays runner has no fingerprint gate: on a
concrete state whose stays section is populated and whose stored fingerprint
equals the freshly computed one, `_run_stays_research` still invokes the
external agent, and a mergeable agent result overwrites the stored payload. -/
theorem staged_runner_ignores_gate_cex :
    planSection stGated .stays = .obj staysPayloadOld ∧
    staysPayloadOld.get "_fp"
      = some (.str (computeFp stGated.extractedInfo Section.stays.keys)) ∧
    (runStagedResearch .stays agentNewStays stGated).2 = true ∧
    planSection (runStagedResearch .stays agentNewStays stGated).1 .stays
      ≠ .obj staysPayloadOld := by
  refine ⟨rfl, rfl, rfl, ?_⟩
  intro h
  have heval : planSection (runStagedResearch .stays agentNewStays stGated).1 .stays
      = .obj (newStaysPayload.set "_fp"
          (.str (computeFp exParis Section.stays.keys))) := rfl
  rw [heval] at h
  have h2 := congrArg (fun v => match v with | JVal.obj q => q.get "recommendations" | _ => none) h
  simp only [] at h2
  have e1 : (newStaysPayload.set "_fp"
      (JVal.str (computeFp exParis Section.stays.keys))).get "recommendations"
      = some (.str "Completely different hotels.") := rfl
  have e2 : staysPayloadOld.get "recommendations"
      = some (.str "Stay near the river.") := rfl
  rw [e1, e2] at h2
  injection h2 with h3
  injection h3 with h4
  exact absurd h4 (by decide)

/-- Witness for C1 at a concrete gated state: the combined runner leaves the
fresh stays section alone and does not invoke the stays agent, while the
staged runner reports an (unconditional) agent invocation. -/
theorem research_gate_idempotent_witness :
    (invokedFlag (runResearch (fun _ => agentNewStays) stGated).2 .stays = false ∧
      planSection (runResearch (fun _ => agentNewStays) stGated).1 .stays
        = .obj staysPayloadOld) ∧
    (runStagedResearch .stays agentNewStays stGated).2 = true :=
  ⟨research_gate_idempotent.1 (fun _ => agentNewStays) stGated .stays staysPayloadOld rfl rfl,
   research_gate_idempotent.2 .stays agentNewStays stGated⟩

theorem isNonemptyStr_false_of (po : JObj) (k : String)
    (h : ∀ s, po.get k = some (.str s) → pyStrip s = "") :
    isNonemptyStr (pyGet po k) = false := by
  unfold pyGet
  cases hk : po.get k with
  | none => rfl
  | some v =>
      cases v with
      | str s => simpa [isNonemptyStr, bne] using h s hk
      | null => rfl
      | bool b => rfl
      | num n => rfl
      | arr a => rfl
      | obj o => rfl

theorem isNonemptyList_false_of (po : JObj) (k : String)
    (h : ∀ a, po.get k = some (.arr a) → a = .nil) :
    isNonemptyList (pyGet po k) = false := by
  unfold pyGet
  cases hk : po.get k with
  | none => rfl
  | some v =>
      cases v with
      | arr a =>
          cases a with
          | nil => rfl
          | cons x t => exact absurd (h _ hk) (by intro hc; cases hc)
      | null => rfl
      | bool b => rfl
      | num n => rfl
      | str s => rfl
      | obj o => rfl

theorem runStaged_result (sec : Section) (agent : ResearchAgent) (st : GState)
    (p : JObj) (po : JObj) (hpatch : agent (ensurePlanState st) = .obj p)
    (hget : p.get sec.name = some (.obj po)) :
    (runStagedResearch sec agent st).1
      = (if shouldMerge (.obj po) then
          {ensurePlanState st with currentPlan := some ((ensurePlan st.currentPlan).setSection
            sec (.obj (po.set "_fp" (.str (computeFp st.extractedInfo sec.keys)))))}
         else ensurePlanState st) := by
  unfold runStagedResearch
  simp only [hpatch, hget]
  by_cases hsm : shouldMerge (.obj po) = true
  · simp [hsm, ensurePlanState, ensurePlan_idem]
  · simp at hsm
    simp [hsm]

/-- C4 (amended).  The merge gate, as it actually behaves on the research
runners: a patch whose `recommendations` text is empty (absent, non-string,
or whitespace-only) AND whose `sources` list is empty, AND which also carries
no non-empty legacy `summary` text and no non-empty legacy `results` list, is
never merged — the previously stored section is left unchanged; a patch with
non-empty `recommendations` text or a non-empty `sources` list is always
merged, overwriting the stored section (with the fresh fingerprint stamped
under `"_fp"`).  A patch that is empty in the claim's sense but carries legacy
`summary`/`results` content IS merged — see the counterexample. -/
theorem merge_gate (sec : Section) (agent : ResearchAgent) (st : GState)
    (p : JObj) (po : JObj)
    (hpatch : agent (ensurePlanState st) = .obj p)
    (hget : p.get sec.name = some (.obj po)) :
    ((∀ s, po.get "recommendations" = some (.str s) → pyStrip s = "") →
     (∀ a, po.get "sources" = some (.arr a) → a = .nil) →
     (∀ s, po.get "summary" = some (.str s) → pyStrip s = "") →
     (∀ a, po.get "results" = some (.arr a) → a = .nil) →
     planSection (runStagedResearch sec agent st).1 sec = planSection st sec) ∧
    (((∃ s, po.get "recommendations" = some (.str s) ∧ pyStrip s ≠ "") ∨
      (∃ v t, po.get "sources" = some (.arr (.cons v t)))) →
     planSection (runStagedResearch sec agent st).1 sec
       = .obj (po.set "_fp" (.str (computeFp st.extractedInfo sec.keys)))) := by
  constructor
  · intro h1 h2 h3 h4
    have hsm : shouldMerge (.obj po) = false := by
      simp only [shouldMerge, Bool.or_eq_false_iff]
      exact ⟨⟨isNonemptyStr_false_of po _ h1, isNonemptyList_false_of po _ h2⟩,
        ⟨isNonemptyStr_false_of po _ h3, isNonemptyList_false_of po _ h4⟩⟩
    rw [runStaged_result sec agent st p po hpatch hget]
    simp [hsm, planSection, ensurePlanState, ensurePlan_idem]
  · intro hne
    have hsm : shouldMerge (.obj po) = true := by
      simp only [shouldMerge, Bool.or_eq_true]
      left
      rcases hne with ⟨s, hs, hns⟩ | ⟨v, t, hv⟩
      · left
        simp [pyGet, hs, isNonemptyStr, bne, hns]
      · right
        simp [pyGet, hv, isNonemptyList]
    rw [runStaged_result sec agent st p po hpatch hget]
    simp [hsm, planSection, ensurePlan_setSection_obj]

/-- C4 counterexample.  A patch with empty `recommendations` and an empty
`sources` list but a non-empty legacy `summary` field passes `_should_merge`
through its backwards-compatibility clause and OVERWRITES a previously stored
non-empty stays section — the claim says such a patch is never merged. -/
theorem merge_gate_legacy_cex :
    pyGet legacyPayload "recommendations" = .str "" ∧
    pyGet legacyPayload "sources" = .arr .nil ∧
    planSection stGated .stays = .obj staysPayloadOld ∧
    isNonemptyStr (pyGet staysPayloadOld "recommendations") = true ∧
    planSection (runStagedResearch .stays agentLegacy stGated).1 .stays
      ≠ .obj staysPayloadOld := by
  refine ⟨rfl, rfl, rfl, rfl, ?_⟩
  intro h
  have heval : planSection (runStagedResearch .stays agentLegacy stGated).1 .stays
      = .obj (legacyPayload.set "_fp"
          (.str (computeFp exParis Section.stays.keys))) := rfl
  rw [heval] at h
  have h2 := congrArg (fun v => match v with | JVal.obj q => q.get "recommendations" | _ => none) h
  simp only [] at h2
  have e1 : (legacyPayload.set "_fp"
      (JVal.str (computeFp exParis Section.stays.keys))).get "recommendations"
      = some (.str "") := rfl
  have e2 : staysPayloadOld.get "recommendations"
      = some (.str "Stay near the river.") := rfl
  rw [e1, e2] at h2
  injection h2 with h3
  injection h3 with h4
  exact absurd h4 (by decide)

/-- Witness for C4 at concrete inputs: a truly empty patch payload leaves the
stored stays section unchanged, and a payload with non-empty recommendations
overwrites it with the fingerprint stamped in. -/
theorem merge_gate_witness :
    planSection (runStagedResearch .stays
        (fun _ => .obj (JObj.cons "stays" (.obj JObj.nil) JObj.nil)) stGated).1 .stays
      = planSection stGated .stays ∧
    planSection (runStagedResearch .stays agentNewStays stGated).1 .stays
      = .obj (newStaysPayload.set "_fp"
          (.str (computeFp stGated.extractedInfo Section.stays.keys))) :=
  ⟨(merge_gate .stays (fun _ => .obj (JObj.cons "stays" (.obj JObj.nil) JObj.nil)) stGated
      (JObj.cons "stays" (.obj JObj.nil) JObj.nil) JObj.nil rfl rfl).1
      (by intro s hs; cases hs) (by intro a ha; cases ha)
      (by intro s hs; cases hs) (by intro a ha; cases ha),
   (merge_gate .stays agentNewStays stGated
      (JObj.cons "stays" (.obj newStaysPayload) JObj.nil) newStaysPayload rfl rfl).2
      (Or.inl ⟨"Completely different hotels.", rfl, by decide⟩)⟩

theorem registerComponentR_days_acc (reg? : Option Registry) (data : JObj)
    (d : Option Nat) (s : Option String) (suf now : String) :
    ((registerComponentR reg? data "accommodation" d s suf now).1).days
      = (reg?.getD emptyRegistry).days := by
  unfold registerComponentR
  simp

theorem registerComponentR_days_trans (reg? : Option Registry) (data : JObj)
    (d : Option Nat) (s : Option String) (suf now : String) :
    ((registerComponentR reg? data "transport" d s suf now).1).days
      = (reg?.getD emptyRegistry).days := by
  unfold registerComponentR
  simp

theorem registerTransportOptions_days (opts : List JObj) (reg? : Option Registry)
    (idx : Nat) (sgen : Nat → String) (fresh : Nat) (now : String) :
    (registerTransportOptions reg? opts idx sgen fresh now).1.days
      = (reg?.getD emptyRegistry).days := by
  induction opts generalizing reg? idx fresh with
  | nil => rfl
  | cons o t ih =>
      unfold registerTransportOptions
      rw [ih]
      simp [registerComponentR_days_trans]

/-- C2.  Pre-selection day suppression: whenever no accommodation component
is marked selected, the composer's post-generation pass forces the generated
itinerary's `days` to the empty list before registration and rendering — even
if the generation step produced day entries — and consequently registers no
day component (the registry's day map is exactly what it was before the
call). -/
theorem compose_preselection_days_empty (st : GState) (gen : SItin)
    (sgen : Nat → String) (now : String)
    (hsel : hotelSelected st.components = false)
    (hacc : gen.accommodationOptions ≠ []) :
    ∃ st' it, composePost st gen sgen now = some (st', it) ∧ it.days = [] ∧
      (st'.components.getD emptyRegistry).days
        = (st.components.getD emptyRegistry).days := by
  obtain ⟨md, accs, trs, ds, tips⟩ := gen
  obtain ⟨primary, rest, hopt⟩ := List.exists_cons_of_ne_nil hacc
  simp only at hopt
  subst hopt
  unfold composePost
  simp only [hsel, Bool.not_false, Bool.false_eq_true, if_false, Bool.true_and]
  by_cases hd : ds.isEmpty
  · have hde : ds = [] := by simpa [List.isEmpty_iff] using hd
    subst hde
    simp only [hd]
    unfold registerStructuredComponents
    simp only []
    refine ⟨_, _, rfl, rfl, ?_⟩
    simp only [registerDays, registerComponentR_days_acc, Option.getD_some,
      registerTransportOptions_days]
  · simp only [hd, Bool.not_false, if_true]
    unfold registerStructuredComponents
    simp only []
    refine ⟨_, _, rfl, rfl, ?_⟩
    simp only [registerDays, registerComponentR_days_acc, Option.getD_some,
      registerTransportOptions_days]

/-- Witness for C2 at a concrete input: on a fresh state with no selected
hotel, composing an itinerary that wrongly carries a generated day yields an
output with `days = []` and registers no day component. -/
theorem compose_preselection_days_empty_witness :
    ∃ st' it, composePost stBlank itWithStrayDay sgenU "T0" = some (st', it) ∧ it.days = [] ∧
      (st'.components.getD emptyRegistry).days
        = (stBlank.components.getD emptyRegistry).days :=
  compose_preselection_days_empty stBlank itWithStrayDay sgenU "T0" rfl (by decide)

/-- C3 (code bug).  Hotel-selection exclusivity is violated by the code on
repeated selections: starting from the composer-registered record (primary
with `selected=False`, two unmarked alternatives), the first `select_hotel`
leaves exactly one object marked selected, but a second `select_hotel`
demotes the then-primary into the alternatives list WITHOUT clearing its
`selected=True` flag (`handle_hotel_selection` pops the three registration
stamps from demoted alternatives but not `selected`), leaving TWO objects
marked selected where the claim requires exactly one. -/
theorem hotel_selection_exclusivity_bug :
    (handleHotelSelection stAfterCompose 0 "s1" "T1").2 = true ∧
    countSelected stSel1.components = 1 ∧
    (handleHotelSelection stSel1 0 "s2" "T2").2 = true ∧
    countSelected stSel2.components = 2 := by
  refine ⟨rfl, rfl, rfl, rfl⟩

/-- C10 (code bug).  On the registry shape `new_state` itself creates —
`{"metadata": {}, "accommodation": None, "transport": None, "days": {}}` —
a lookup of any unknown id raises `AttributeError` instead of returning the
not-found sentinel: `components.get("accommodation", {})` returns the stored
`None` (the `{}` default applies only to a MISSING key), and `None.get(...)`
raises.  `update_component` and `delete_component` go through the same scan
and raise too, instead of returning `False` and leaving the state
unchanged. -/
theorem registry_lookup_raises_on_fresh_state :
    (∃ e, getComponentR (some emptyRegistry) "hotel_main_abc" = .error e) ∧
    (∃ e, updateComponentR (some emptyRegistry) "hotel_main_abc" JObj.nil "T0" = .error e) ∧
    (∃ e, deleteComponentR (some emptyRegistry) "hotel_main_abc" = .error e) :=
  ⟨⟨_, rfl⟩, ⟨_, rfl⟩, ⟨_, rfl⟩⟩

@[simp] theorem JArr.toList_ofList (l : List JVal) : (JArr.ofList l).toList = l := by
  induction l with
  | nil => rfl
  | cons v t ih => simp [JArr.ofList, JArr.toList, ih]

theorem JObj.set_ne_nil (o : JObj) (k : String) (v : JVal) : o.set k v ≠ .nil := by
  cases o with
  | nil => simp [JObj.set]
  | cons k' w t =>
      simp only [JObj.set]
      split <;> simp

theorem registerComponentR_accommodation_other (reg? : Option Registry) (data : JObj)
    (ctype : String) (d : Option Nat) (s : Option String) (suf now : String)
    (hc1 : ctype ≠ "accommodation") (hc2 : ctype ≠ "transport") :
    ((registerComponentR reg? data ctype d s suf now).1).accommodation
      = (reg?.getD emptyRegistry).accommodation := by
  unfold registerComponentR
  simp only [if_neg hc1, if_neg hc2]
  cases d with
  | none => rfl
  | some n =>
      simp only []
      split <;> rfl

theorem registerSlot_accommodation (reg : Registry) (sl : SlotS) (n : Nat)
    (slotName : String) (sgen : Nat → String) (fresh : Nat) (now : String) :
    (registerSlot reg sl n slotName sgen fresh now).1.accommodation = reg.accommodation := by
  unfold registerSlot
  cases sl.activity with
  | some a =>
      simp only []
      rw [registerComponentR_accommodation_other _ _ _ _ _ _ _ (by decide) (by decide)]
      rfl
  | none =>
      cases sl.restaurant with
      | some r =>
          simp only []
          rw [registerComponentR_accommodation_other _ _ _ _ _ _ _ (by decide) (by decide)]
          rfl
      | none => rfl

theorem registerDays_accommodation (ds : List SDay) (reg : Registry)
    (sgen : Nat → String) (fresh : Nat) (now : String) :
    (registerDays reg ds sgen fresh now).accommodation = reg.accommodation := by
  induction ds generalizing reg fresh with
  | nil => rfl
  | cons d t ih =>
      unfold registerDays
      rcases hm : registerSlot reg d.morning d.dayNumber "morning" sgen fresh now with ⟨r1, f1⟩
      rcases ha : registerSlot r1 d.afternoon d.dayNumber "afternoon" sgen f1 now with ⟨r2, f2⟩
      rcases he : registerSlot r2 d.evening d.dayNumber "evening" sgen f2 now with ⟨r3, f3⟩
      simp only [hm, ha, he]
      rw [ih]
      have h1 := registerSlot_accommodation reg d.morning d.dayNumber "morning" sgen fresh now
      have h2 := registerSlot_accommodation r1 d.afternoon d.dayNumber "afternoon" sgen f1 now
      have h3 := registerSlot_accommodation r2 d.evening d.dayNumber "evening" sgen f2 now
      rw [hm] at h1
      rw [ha] at h2
      rw [he] at h3
      simp only at h1 h2 h3
      rw [h3, h2, h1]

theorem registerStructured_accommodation (st : GState) (it : SItin) (sgen : Nat → String)
    (now : String) (h1 : JObj) (rest : List JObj)
    (hopts : it.accommodationOptions = h1 :: rest) :
    ∃ st' cid, registerStructuredComponents st it sgen now = some st' ∧
      primaryAccommodation st'.components = some (stampData
        ((h1.set "alternatives" (.arr (JArr.ofList (rest.map JVal.obj)))).set "selected"
          (.bool false)) cid "accommodation" now) := by
  unfold registerStructuredComponents
  rw [hopts]
  simp only []
  rcases hT : registerTransportOptions
      (some {st.components.getD emptyRegistry with metadata := it.metadata})
      it.transportOptions 0 sgen 0 now with ⟨reg1, fresh1⟩
  rcases hA : registerComponentR (some reg1)
      ((h1.set "alternatives" (.arr (JArr.ofList (rest.map JVal.obj)))).set "selected"
        (.bool false)) "accommodation" none none (sgen fresh1) now with ⟨reg2, cid2⟩
  have h2 : reg2.accommodation = .comp (stampData
      ((h1.set "alternatives" (.arr (JArr.ofList (rest.map JVal.obj)))).set "selected"
        (.bool false))
      (generateComponentId "accommodation" none none (sgen fresh1)) "accommodation" now) := by
    have hx : ((registerComponentR (some reg1)
        ((h1.set "alternatives" (.arr (JArr.ofList (rest.map JVal.obj)))).set "selected"
          (.bool false)) "accommodation" none none (sgen fresh1) now).1).accommodation
        = .comp (stampData
            ((h1.set "alternatives" (.arr (JArr.ofList (rest.map JVal.obj)))).set "selected"
              (.bool false))
            (generateComponentId "accommodation" none none (sgen fresh1))
            "accommodation" now) := by
      unfold registerComponentR
      simp
    rw [hA] at hx
    exact hx
  refine ⟨{st with components := some (registerDays reg2 it.days sgen (fresh1 + 1) now)},
    generateComponentId "accommodation" none none (sgen fresh1), ?_, ?_⟩
  · simp only [] at hT
    simp only [hT, hA]
  · simp only [primaryAccommodation]
    rw [registerDays_accommodation, h2]

theorem stampData_get_other (x : JObj) (cid ctype now k : String)
    (h1 : k ≠ "component_id") (h2 : k ≠ "component_type") (h3 : k ≠ "registered_at") :
    (stampData x cid ctype now).get k = x.get k := by
  unfold stampData
  rw [JObj.get_set_ne _ _ _ _ (Ne.symm h3), JObj.get_set_ne _ _ _ _ (Ne.symm h2),
    JObj.get_set_ne _ _ _ _ (Ne.symm h1)]

theorem handleHotelSelection_promotes (st : GState) (reg : Registry) (P : JObj)
    (alts : List JVal) (idx : Nat) (suffix now : String)
    (hc : st.components = some reg) (ha : reg.accommodation = .comp P)
    (hnil : ¬ P = JObj.nil)
    (halt : P.get "alternatives" = some (.arr (JArr.ofList alts)))
    (hidx : idx < alts.length) :
    (handleHotelSelection st idx suffix now).2 = true ∧
    ∃ o, primaryAccommodation ((handleHotelSelection st idx suffix now).1).components = some o ∧
      o.get "name" = some (((asObj (alts.get ⟨idx, hidx⟩)).get "name").getD (.str "Hotel")) ∧
      o.get "selected" = some (.bool true) := by
  unfold handleHotelSelection
  simp only [hc, ha, if_neg hnil, halt, Option.getD_some, JArr.toList_ofList]
  rw [dif_pos hidx]
  unfold registerComponentR
  simp only [if_pos, Option.getD_some, reduceIte]
  refine ⟨trivial, ?_⟩
  simp only [primaryAccommodation]
  refine ⟨_, rfl, ?_, ?_⟩
  · rw [stampData_get_other _ _ _ _ _ (by decide) (by decide) (by decide)]
    simp [JObj.ofList, JObj.get, halt]
  · rw [stampData_get_other _ _ _ _ _ (by decide) (by decide) (by decide)]
    simp [JObj.ofList, JObj.get, halt]

theorem handleHotelSelection_outOfRange (st : GState) (reg : Registry) (P : JObj)
    (alts : List JVal) (idx : Nat) (suffix now : String)
    (hc : st.components = some reg) (ha : reg.accommodation = .comp P)
    (hnil : ¬ P = JObj.nil)
    (halt : P.get "alternatives" = some (.arr (JArr.ofList alts)))
    (hidx : alts.length ≤ idx) :
    handleHotelSelection st idx suffix now = (st, false) := by
  unfold handleHotelSelection
  simp only [hc, ha, if_neg hnil, halt, Option.getD_some, JArr.toList_ofList]
  rw [dif_neg (by omega)]

/-- C6.  Off-by-one ordinal selection: with the record as the composer
registers it (displayed hotel 1 stored as primary, displayed hotels 2 and 3
stored as the alternatives), a user reply "N" maps to `selection_index` N-1
and `handle_hotel_selection` promotes `alternatives[N-1]`: reply "1" promotes
the hotel displayed as option 2, reply "2" promotes the hotel displayed as
option 3, and reply "3" fails (index 2 is out of range of the two-element
alternatives list), surfaced as a could-not-find-that-option message — so the
ordinal the user replies never selects the hotel displayed under that
number. -/
theorem ordinal_selection_off_by_one (st st' : GState) (it : SItin)
    (h1 h2 h3 : JObj) (sgen : Nat → String) (now suffix now2 : String)
    (hopts : it.accommodationOptions = [h1, h2, h3])
    (hreg : registerStructuredComponents st it sgen now = some st') :
    detectNumericReply "1" = some 0 ∧
    detectNumericReply "2" = some 1 ∧
    detectNumericReply "3" = some 2 ∧
    ((handleHotelSelection st' 0 suffix now2).2 = true ∧
      ∃ o, primaryAccommodation ((handleHotelSelection st' 0 suffix now2).1).components
          = some o ∧
        o.get "name" = some ((h2.get "name").getD (.str "Hotel")) ∧
        o.get "selected" = some (.bool true)) ∧
    ((handleHotelSelection st' 1 suffix now2).2 = true ∧
      ∃ o, primaryAccommodation ((handleHotelSelection st' 1 suffix now2).1).components
          = some o ∧
        o.get "name" = some ((h3.get "name").getD (.str "Hotel")) ∧
        o.get "selected" = some (.bool true)) ∧
    handleHotelSelection st' 2 suffix now2 = (st', false) := by
  obtain ⟨st'', cid, hr2, hprim⟩ :=
    registerStructured_accommodation st it sgen now h1 [h2, h3] hopts
  rw [hreg] at hr2
  injection hr2 with hr2
  subst hr2
  have hPnil : ¬ (stampData
      ((h1.set "alternatives" (.arr (JArr.ofList ([h2, h3].map JVal.obj)))).set "selected"
        (.bool false)) cid "accommodation" now) = JObj.nil := by
    unfold stampData
    exact JObj.set_ne_nil _ _ _
  have hPalt : (stampData
      ((h1.set "alternatives" (.arr (JArr.ofList ([h2, h3].map JVal.obj)))).set "selected"
        (.bool false)) cid "accommodation" now).get "alternatives"
      = some (.arr (JArr.ofList (List.map JVal.obj [h2, h3]))) := by
    rw [stampData_get_other _ _ _ _ _ (by decide) (by decide) (by decide)]
    rw [JObj.get_set_ne _ _ _ _ (by decide)]
    exact JObj.get_set_self _ _ _
  cases hsc : st'.components with
  | none => rw [hsc] at hprim; simp [primaryAccommodation] at hprim
  | some reg =>
      rw [hsc] at hprim
      cases hacc : reg.accommodation with
      | absent => simp [primaryAccommodation, hacc] at hprim
      | nullv => simp [primaryAccommodation, hacc] at hprim
      | comp o =>
          simp only [primaryAccommodation, hacc, Option.some.injEq] at hprim
          subst hprim
          refine ⟨by decide, by decide, by decide, ?_, ?_, ?_⟩
          · obtain ⟨hA, o, hB, hC, hD⟩ := handleHotelSelection_promotes st' reg _
              (List.map JVal.obj [h2, h3]) 0 suffix now2 hsc hacc hPnil hPalt (by simp)
            exact ⟨hA, o, hB, by simpa [asObj] using hC, hD⟩
          · obtain ⟨hA, o, hB, hC, hD⟩ := handleHotelSelection_promotes st' reg _
              (List.map JVal.obj [h2, h3]) 1 suffix now2 hsc hacc hPnil hPalt (by simp)
            exact ⟨hA, o, hB, by simpa [asObj] using hC, hD⟩
          · exact handleHotelSelection_outOfRange st' reg _
              (List.map JVal.obj [h2, h3]) 2 suffix now2 hsc hacc hPnil hPalt (by simp)

/-- Witness for C6 at the concrete three-hotel composition: reply "1"
(selection index 0) promotes the hotel displayed as option 2 ("Budget Inn"),
and reply "3" (selection index 2) fails. -/
theorem ordinal_selection_off_by_one_witness :
    detectNumericReply "1" = some 0 ∧
    (∃ o, primaryAccommodation ((handleHotelSelection stAfterCompose 0 "s1" "T1").1).components
        = some o ∧
      o.get "name" = some ((hotelB.get "name").getD (.str "Hotel")) ∧
      o.get "selected" = some (.bool true)) ∧
    handleHotelSelection stAfterCompose 2 "s1" "T1" = (stAfterCompose, false) := by
  obtain ⟨d1, d2, d3, p0, p1, p2⟩ := ordinal_selection_off_by_one stBlank stAfterCompose
    itThreeHotels hotelA hotelB hotelC sgenU "T0" "s1" "T1" rfl rfl
  exact ⟨d1, p0.2, p2⟩

theorem stampData_componentId (x : JObj) (cid ctype now : String) :
    (stampData x cid ctype now).get "component_id" = some (.str cid) := by
  unfold stampData
  rw [JObj.get_set_ne _ _ _ _ (by decide), JObj.get_set_ne _ _ _ _ (by decide)]
  exact JObj.get_set_self _ _ _

theorem compIdMatches_stampData (x : JObj) (cid ctype now : String) :
    compIdMatches (stampData x cid ctype now) cid = true := by
  simp [compIdMatches, stampData_componentId]

theorem findInComps_shape (dk sk : String) (j : Nat) (l : List JVal) (cid : String)
    (r : Loc × JObj) (h : findInComps dk sk j l cid = some r) :
    ∃ i, r.1 = .item dk sk i := by
  induction l generalizing j with
  | nil => simp [findInComps] at h
  | cons v t ih =>
      unfold findInComps at h
      cases v with
      | obj o =>
          simp only [] at h
          by_cases hm : compIdMatches o cid
          · rw [if_pos hm] at h
            injection h with h
            exact ⟨j, by rw [← h]⟩
          · rw [if_neg hm] at h
            exact ih _ h
      | null => simp only [] at h; exact ih _ h
      | bool b => simp only [] at h; exact ih _ h
      | num n => simp only [] at h; exact ih _ h
      | str s => simp only [] at h; exact ih _ h
      | arr a => simp only [] at h; exact ih _ h

theorem findInDayData_shape (dk : String) (l : List (String × JVal)) (cid : String)
    (r : Loc × JObj) (h : findInDayData dk l cid = some r) :
    (∃ sk, r.1 = .slot dk sk) ∨ (∃ sk i, r.1 = .item dk sk i) := by
  induction l with
  | nil => simp [findInDayData] at h
  | cons p t ih =>
      obtain ⟨sk0, v⟩ := p
      unfold findInDayData at h
      cases v with
      | obj o =>
          simp only [] at h
          by_cases hm : compIdMatches o cid
          · rw [if_pos hm] at h
            injection h with h
            exact Or.inl ⟨sk0, by rw [← h]⟩
          · rw [if_neg hm] at h
            exact ih h
      | arr a =>
          simp only [] at h
          by_cases hk : sk0 = "components"
          · rw [if_pos hk] at h
            cases hc : findInComps dk sk0 0 a.toList cid with
            | none => rw [hc] at h; exact ih h
            | some r2 =>
                rw [hc] at h
                injection h with h
                subst h
                obtain ⟨i, hi⟩ := findInComps_shape dk sk0 0 a.toList cid r2 hc
                exact Or.inr ⟨sk0, i, hi⟩
          · rw [if_neg hk] at h
            exact ih h
      | null => simp only [] at h; exact ih h
      | bool b => simp only [] at h; exact ih h
      | num n => simp only [] at h; exact ih h
      | str s => simp only [] at h; exact ih h

theorem findInDays_shape (days : List (String × JObj)) (cid : String)
    (r : Loc × JObj) (h : findInDays days cid = some r) :
    ∃ dk, (∃ sk, r.1 = .slot dk sk) ∨ (∃ sk i, r.1 = .item dk sk i) := by
  induction days with
  | nil => simp [findInDays] at h
  | cons p t ih =>
      obtain ⟨dk0, dd⟩ := p
      unfold findInDays at h
      cases hd : findInDayData dk0 dd.toList cid with
      | none => rw [hd] at h; exact ih h
      | some r2 =>
          rw [hd] at h
          injection h with h
          subst h
          exact ⟨dk0, findInDayData_shape dk0 dd.toList cid r2 hd⟩

theorem locateFromTransport_shape (reg : Registry) (cid : String) (r : Loc × JObj)
    (h : locateComponent.locateFromTransport reg cid = .ok (some r)) :
    r.1 = .trans ∨ ∃ dk, (∃ sk, r.1 = .slot dk sk) ∨ (∃ sk i, r.1 = .item dk sk i) := by
  unfold locateComponent.locateFromTransport at h
  cases ht : reg.transport with
  | nullv => rw [ht] at h; simp at h
  | comp o =>
      rw [ht] at h
      simp only [] at h
      by_cases hm : compIdMatches o cid
      · rw [if_pos hm] at h
        injection h with h
        injection h with h
        exact Or.inl (congrArg Prod.fst h.symm)
      · rw [if_neg hm] at h
        injection h with h
        exact Or.inr (findInDays_shape reg.days cid r h)
  | absent =>
      rw [ht] at h
      simp only [] at h
      injection h with h
      exact Or.inr (findInDays_shape reg.days cid r h)

theorem getComponentR_none_of_scanClean (reg : Registry) (cid : String)
    (h : scanClean reg cid = true) : getComponentR (some reg) cid = .ok none := by
  unfold scanClean at h
  simp only [Bool.and_eq_true, beq_iff_eq] at h
  obtain ⟨⟨hacc, htr⟩, hdays⟩ := h
  unfold getComponentR locateComponent locateComponent.locateFromTransport
  simp only []
  cases ha : reg.accommodation with
  | nullv => rw [ha] at hacc; simp [entryMissesId] at hacc
  | comp o =>
      rw [ha] at hacc
      simp only [entryMissesId, Bool.not_eq_eq_eq_not, Bool.not_true] at hacc
      simp only [hacc, Bool.false_eq_true, if_false]
      cases ht : reg.transport with
      | nullv => rw [ht] at htr; simp [entryMissesId] at htr
      | comp o2 =>
          rw [ht] at htr
          simp only [entryMissesId, Bool.not_eq_eq_eq_not, Bool.not_true] at htr
          simp [ht, htr, hdays, Except.map]
      | absent => simp [ht, hdays, Except.map]
  | absent =>
      simp only []
      cases ht : reg.transport with
      | nullv => rw [ht] at htr; simp [entryMissesId] at htr
      | comp o2 =>
          rw [ht] at htr
          simp only [entryMissesId, Bool.not_eq_eq_eq_not, Bool.not_true] at htr
          simp [ht, htr, hdays, Except.map]
      | absent => simp [ht, hdays, Except.map]

theorem scanClean_of_getComponentR_none (reg : Registry) (cid : String)
    (h : getComponentR (some reg) cid = .ok none) : scanClean reg cid = true := by
  unfold getComponentR locateComponent locateComponent.locateFromTransport at h
  simp only [] at h
  unfold scanClean
  simp only [Bool.and_eq_true, beq_iff_eq]
  cases ha : reg.accommodation with
  | nullv => rw [ha] at h; simp [Except.map] at h
  | comp o =>
      rw [ha] at h
      simp only [] at h
      by_cases hm : compIdMatches o cid
      · rw [if_pos hm] at h
        simp [Except.map] at h
      · rw [if_neg hm] at h
        refine ⟨⟨by simp [entryMissesId, hm], ?_⟩, ?_⟩ <;>
        · cases ht : reg.transport with
          | nullv => rw [ht] at h; simp [Except.map] at h
          | comp o2 =>
              rw [ht] at h
              simp only [] at h
              by_cases hm2 : compIdMatches o2 cid
              · rw [if_pos hm2] at h
                simp [Except.map] at h
              · rw [if_neg hm2] at h
                simp only [Except.map, Option.map] at h
                first
                  | simp [entryMissesId, hm2]
                  | (cases hd : findInDays reg.days cid with
                      | none => rfl
                      | some r => rw [hd] at h; simp at h)
          | absent =>
              rw [ht] at h
              simp only [Except.map, Option.map] at h
              first
                | simp [entryMissesId]
                | (cases hd : findInDays reg.days cid with
                    | none => rfl
                    | some r => rw [hd] at h; simp at h)
  | absent =>
      rw [ha] at h
      simp only [] at h
      refine ⟨⟨by simp [entryMissesId], ?_⟩, ?_⟩ <;>
      · cases ht : reg.transport with
        | nullv => rw [ht] at h; simp [Except.map] at h
        | comp o2 =>
            rw [ht] at h
            simp only [] at h
            by_cases hm2 : compIdMatches o2 cid
            · rw [if_pos hm2] at h
              simp [Except.map] at h
            · rw [if_neg hm2] at h
              simp only [Except.map, Option.map] at h
              first
                | simp [entryMissesId, hm2]
                | (cases hd : findInDays reg.days cid with
                    | none => rfl
                    | some r => rw [hd] at h; simp at h)
        | absent =>
            rw [ht] at h
            simp only [Except.map, Option.map] at h
            first
              | simp [entryMissesId]
              | (cases hd : findInDays reg.days cid with
                  | none => rfl
                  | some r => rw [hd] at h; simp at h)

theorem findInDayData_set_none (dk sk cid : String) (o' : JObj) (dd : JObj)
    (hm : compIdMatches o' cid = true)
    (h : findInDayData dk dd.toList cid = none) :
    findInDayData dk (dd.set sk (.obj o')).toList cid = some (.slot dk sk, o') := by
  induction dd using JObj.induct with
  | hnil => simp [JObj.set, JObj.toList, findInDayData, hm]
  | hcons k v t ih =>
      simp only [JObj.toList] at h
      unfold findInDayData at h
      by_cases hk : k = sk
      · subst hk
        simp only [JObj.set, if_pos rfl, JObj.toList]
        unfold findInDayData
        simp [hm]
      · simp only [JObj.set, if_neg hk, JObj.toList]
        unfold findInDayData
        cases v with
        | obj o0 =>
            simp only [] at h ⊢
            by_cases hmo : compIdMatches o0 cid
            · rw [if_pos hmo] at h; cases h
            · rw [if_neg hmo] at h
              rw [if_neg hmo]
              exact ih h
        | arr a =>
            simp only [] at h ⊢
            by_cases hkc : k = "components"
            · subst hkc
              rw [if_pos rfl] at h ⊢
              cases hc : findInComps dk "components" 0 a.toList cid with
              | some r => rw [hc] at h; cases h
              | none =>
                  rw [hc] at h
                  exact ih h
            · rw [if_neg hkc] at h
              rw [if_neg hkc]
              exact ih h
        | null => simp only [] at h ⊢; exact ih h
        | bool b => simp only [] at h ⊢; exact ih h
        | num m => simp only [] at h ⊢; exact ih h
        | str s2 => simp only [] at h ⊢; exact ih h

theorem findInDays_set_none (days : List (String × JObj)) (dk sk cid : String) (o' : JObj)
    (hm : compIdMatches o' cid = true)
    (h : findInDays days cid = none) :
    findInDays (setDay days dk (((getDay days dk).getD .nil).set sk (.obj o'))) cid
      = some (.slot dk sk, o') := by
  induction days with
  | nil =>
      have hx := findInDayData_set_none dk sk cid o' .nil hm (by rfl)
      have hg : getDay ([] : List (String × JObj)) dk = none := rfl
      rw [hg, Option.getD_none]
      simp only [setDay]
      unfold findInDays
      rw [hx]
  | cons p t ih =>
      obtain ⟨k0, d0⟩ := p
      unfold findInDays at h
      cases hd : findInDayData k0 d0.toList cid with
      | some r => rw [hd] at h; cases h
      | none =>
          rw [hd] at h
          by_cases hk : k0 = dk
          · subst hk
            have hg : getDay ((k0, d0) :: t) k0 = some d0 := by simp [getDay]
            rw [hg, Option.getD_some]
            simp only [setDay, if_true]
            unfold findInDays
            rw [findInDayData_set_none k0 sk cid o' d0 hm hd]
          · have hg : getDay ((k0, d0) :: t) dk = getDay t dk := by
              unfold getDay
              rw [List.find?_cons_of_neg]
              simp [hk]
            rw [hg]
            simp only [setDay, if_neg hk]
            unfold findInDays
            rw [hd]
            exact ih h

theorem locateComponent_fwd_acc (reg : Registry) (cid : String) (o : JObj)
    (ha : reg.accommodation = .comp o) (hm : compIdMatches o cid = true) :
    locateComponent (some reg) cid = .ok (some (.acc, o)) := by
  unfold locateComponent
  simp only []
  rw [ha]
  simp [hm]

theorem locateComponent_fwd_trans (reg : Registry) (cid : String) (o : JObj)
    (ha : entryMissesId reg.accommodation cid = true)
    (ht : reg.transport = .comp o) (hm : compIdMatches o cid = true) :
    locateComponent (some reg) cid = .ok (some (.trans, o)) := by
  unfold locateComponent locateComponent.locateFromTransport
  simp only []
  cases hacc : reg.accommodation with
  | nullv => rw [hacc] at ha; simp [entryMissesId] at ha
  | comp o0 =>
      rw [hacc] at ha
      simp only [entryMissesId, Bool.not_eq_eq_eq_not, Bool.not_true] at ha
      simp [ha, ht, hm]
  | absent => simp [ht, hm]

theorem locateComponent_fwd_days (reg : Registry) (cid : String) (r : Loc × JObj)
    (ha : entryMissesId reg.accommodation cid = true)
    (ht : entryMissesId reg.transport cid = true)
    (hd : findInDays reg.days cid = some r) :
    locateComponent (some reg) cid = .ok (some r) := by
  unfold locateComponent locateComponent.locateFromTransport
  simp only []
  cases hacc : reg.accommodation with
  | nullv => rw [hacc] at ha; simp [entryMissesId] at ha
  | comp o0 =>
      rw [hacc] at ha
      simp only [entryMissesId, Bool.not_eq_eq_eq_not, Bool.not_true] at ha
      cases htr : reg.transport with
      | nullv => rw [htr] at ht; simp [entryMissesId] at ht
      | comp o1 =>
          rw [htr] at ht
          simp only [entryMissesId, Bool.not_eq_eq_eq_not, Bool.not_true] at ht
          simp [ha, ht, hd]
      | absent => simp [ha, hd]
  | absent =>
      cases htr : reg.transport with
      | nullv => rw [htr] at ht; simp [entryMissesId] at ht
      | comp o1 =>
          rw [htr] at ht
          simp only [entryMissesId, Bool.not_eq_eq_eq_not, Bool.not_true] at ht
          simp [ht, hd]
      | absent => simp [hd]

theorem JObj.get_update_none (o updates : JObj) (k : String)
    (h : updates.get k = none) : (o.update updates).get k = o.get k := by
  induction updates using JObj.induct generalizing o with
  | hnil => rfl
  | hcons k0 v0 t ih =>
      simp only [JObj.get] at h
      by_cases hk : k0 = k
      · rw [if_pos hk] at h; simp at h
      · rw [if_neg hk] at h
        simp only [JObj.update]
        rw [ih (o.set k0 v0) h]
        exact JObj.get_set_ne o k0 k v0 hk

theorem compIdMatches_updated (o updates : JObj) (cid now : String)
    (hc : compIdMatches o cid = true) (hu : updates.get "component_id" = none) :
    compIdMatches ((o.update updates).set "last_modified" (.str now)) cid = true := by
  unfold compIdMatches at hc ⊢
  rw [JObj.get_set_ne _ _ _ _ (by decide)]
  rw [JObj.get_update_none o updates _ hu]
  exact hc

theorem locateFromTransport_inv (reg : Registry) (cid : String) (loc : Loc) (o : JObj)
    (h : locateComponent.locateFromTransport reg cid = .ok (some (loc, o))) :
    (loc = .trans ∧ reg.transport = .comp o ∧ compIdMatches o cid = true)
    ∨ (entryMissesId reg.transport cid = true ∧ findInDays reg.days cid = some (loc, o)) := by
  unfold locateComponent.locateFromTransport at h
  cases htr : reg.transport with
  | nullv => rw [htr] at h; simp at h
  | comp o1 =>
      rw [htr] at h
      simp only [] at h
      cases hm : compIdMatches o1 cid with
      | true =>
          simp only [hm, if_true] at h
          simp only [Except.ok.injEq, Option.some.injEq, Prod.mk.injEq] at h
          obtain ⟨hl, ho⟩ := h
          subst hl; subst ho
          exact Or.inl ⟨rfl, rfl, hm⟩
      | false =>
          simp only [hm, Bool.false_eq_true, if_false] at h
          injection h with h
          exact Or.inr ⟨by simp [entryMissesId, hm], h⟩
  | absent =>
      rw [htr] at h
      simp only [] at h
      injection h with h
      exact Or.inr ⟨by simp [entryMissesId], h⟩

theorem locateComponent_inv (reg : Registry) (cid : String) (loc : Loc) (o : JObj)
    (h : locateComponent (some reg) cid = .ok (some (loc, o))) :
    (loc = .acc ∧ reg.accommodation = .comp o ∧ compIdMatches o cid = true)
    ∨ (entryMissesId reg.accommodation cid = true
        ∧ ((loc = .trans ∧ reg.transport = .comp o ∧ compIdMatches o cid = true)
            ∨ (entryMissesId reg.transport cid = true
                ∧ findInDays reg.days cid = some (loc, o)))) := by
  unfold locateComponent at h
  simp only [] at h
  cases hacc : reg.accommodation with
  | nullv => rw [hacc] at h; simp at h
  | comp o0 =>
      rw [hacc] at h
      simp only [] at h
      cases hm : compIdMatches o0 cid with
      | true =>
          simp only [hm, if_true] at h
          simp only [Except.ok.injEq, Option.some.injEq, Prod.mk.injEq] at h
          obtain ⟨hl, ho⟩ := h
          subst hl; subst ho
          exact Or.inl ⟨rfl, rfl, hm⟩
      | false =>
          simp only [hm, Bool.false_eq_true, if_false] at h
          exact Or.inr ⟨by simp [entryMissesId, hm],
            locateFromTransport_inv reg cid loc o h⟩
  | absent =>
      rw [hacc] at h
      simp only [] at h
      exact Or.inr ⟨by simp [entryMissesId],
        locateFromTransport_inv reg cid loc o h⟩

theorem findInComps_append (dk sk : String) (j : Nat) (l : List JVal) (cid : String)
    (o' : JObj) (hm : compIdMatches o' cid = true)
    (h : findInComps dk sk j l cid = none) :
    findInComps dk sk j (l ++ [.obj o']) cid = some (.item dk sk (j + l.length), o') := by
  induction l generalizing j with
  | nil =>
      simp only [List.nil_append, List.length_nil, Nat.add_zero]
      unfold findInComps
      simp [hm]
  | cons v t ih =>
      unfold findInComps at h
      simp only [List.cons_append]
      unfold findInComps
      cases v with
      | obj o0 =>
          simp only [] at h ⊢
          cases hmo : compIdMatches o0 cid with
          | true => simp only [hmo, if_true] at h; cases h
          | false =>
              simp only [hmo, Bool.false_eq_true, if_false] at h ⊢
              rw [ih (j + 1) h, List.length_cons]
              have harith : j + 1 + t.length = j + (t.length + 1) := by omega
              rw [harith]
      | arr a =>
          simp only [] at h ⊢
          rw [ih (j + 1) h, List.length_cons]
          have harith : j + 1 + t.length = j + (t.length + 1) := by omega
          rw [harith]
      | null =>
          simp only [] at h ⊢
          rw [ih (j + 1) h, List.length_cons]
          have harith : j + 1 + t.length = j + (t.length + 1) := by omega
          rw [harith]
      | bool b =>
          simp only [] at h ⊢
          rw [ih (j + 1) h, List.length_cons]
          have harith : j + 1 + t.length = j + (t.length + 1) := by omega
          rw [harith]
      | num m =>
          simp only [] at h ⊢
          rw [ih (j + 1) h, List.length_cons]
          have harith : j + 1 + t.length = j + (t.length + 1) := by omega
          rw [harith]
      | str s =>
          simp only [] at h ⊢
          rw [ih (j + 1) h, List.length_cons]
          have harith : j + 1 + t.length = j + (t.length + 1) := by omega
          rw [harith]

theorem findInDayData_set_found (dk sk cid : String) (o' o0 : JObj) (dd : JObj)
    (hm : compIdMatches o' cid = true)
    (h : findInDayData dk dd.toList cid = some (.slot dk sk, o0)) :
    findInDayData dk (dd.set sk (.obj o')).toList cid = some (.slot dk sk, o') := by
  induction dd using JObj.induct with
  | hnil => simp [JObj.toList, findInDayData] at h
  | hcons k v t ih =>
      simp only [JObj.toList] at h
      unfold findInDayData at h
      by_cases hk : k = sk
      · subst hk
        simp only [JObj.set, if_pos rfl, JObj.toList]
        unfold findInDayData
        simp [hm]
      · simp only [JObj.set, if_neg hk, JObj.toList]
        unfold findInDayData
        cases v with
        | obj o1 =>
            simp only [] at h ⊢
            cases hmo : compIdMatches o1 cid with
            | true =>
                simp only [hmo, if_true] at h
                simp only [Option.some.injEq, Prod.mk.injEq, Loc.slot.injEq] at h
                exact absurd h.1.2 hk
            | false =>
                simp only [hmo, Bool.false_eq_true, if_false] at h ⊢
                exact ih h
        | arr a =>
            simp only [] at h ⊢
            by_cases hkc : k = "components"
            · subst hkc
              rw [if_pos rfl] at h ⊢
              cases hc : findInComps dk "components" 0 a.toList cid with
              | some r =>
                  rw [hc] at h
                  injection h with h
                  obtain ⟨i, hi⟩ := findInComps_shape dk "components" 0 a.toList cid r hc
                  rw [h] at hi
                  simp at hi
              | none =>
                  rw [hc] at h
                  exact ih h
            · rw [if_neg hkc] at h ⊢
              exact ih h
        | null => simp only [] at h ⊢; exact ih h
        | bool b => simp only [] at h ⊢; exact ih h
        | num m => simp only [] at h ⊢; exact ih h
        | str s2 => simp only [] at h ⊢; exact ih h

theorem findInDays_set_found (days : List (String × JObj)) (dk sk cid : String)
    (o' o0 : JObj) (hm : compIdMatches o' cid = true)
    (h : findInDays days cid = some (.slot dk sk, o0)) :
    findInDays (setDay days dk (((getDay days dk).getD .nil).set sk (.obj o'))) cid
      = some (.slot dk sk, o') := by
  induction days with
  | nil => simp [findInDays] at h
  | cons p t ih =>
      obtain ⟨k0, d0⟩ := p
      unfold findInDays at h
      cases hd : findInDayData k0 d0.toList cid with
      | some r =>
          rw [hd] at h
          injection h with h
          subst h
          have hk0 : k0 = dk := by
            rcases findInDayData_shape k0 d0.toList cid _ hd with ⟨sk1, hs⟩ | ⟨sk1, i, hs⟩
            · simp only [] at hs
              injection hs with h1 h2
              exact h1.symm
            · simp at hs
          subst hk0
          have hg : getDay ((k0, d0) :: t) k0 = some d0 := by simp [getDay]
          rw [hg, Option.getD_some]
          simp only [setDay, if_true]
          unfold findInDays
          rw [findInDayData_set_found k0 sk cid o' o0 d0 hm hd]
      | none =>
          rw [hd] at h
          by_cases hk : k0 = dk
          · subst hk
            have hg : getDay ((k0, d0) :: t) k0 = some d0 := by simp [getDay]
            rw [hg, Option.getD_some]
            simp only [setDay, if_true]
            unfold findInDays
            rw [findInDayData_set_none k0 sk cid o' d0 hm hd]
          · have hg : getDay ((k0, d0) :: t) dk = getDay t dk := by
              unfold getDay
              rw [List.find?_cons_of_neg]
              simp [hk]
            rw [hg]
            simp only [setDay, if_neg hk]
            unfold findInDays
            rw [hd]
            exact ih h

theorem findInDayData_set_comps (dk cid : String) (o' : JObj) (dd : JObj) (cur : List JVal)
    (hm : compIdMatches o' cid = true)
    (hcur : (match dd.get "components" with
              | some (.arr a) => a.toList
              | _ => ([] : List JVal)) = cur)
    (h : findInDayData dk dd.toList cid = none) :
    findInDayData dk (dd.set "components" (.arr (JArr.ofList (cur ++ [.obj o'])))).toList cid
      = some (.item dk "components" cur.length, o') := by
  induction dd using JObj.induct generalizing cur with
  | hnil =>
      simp only [JObj.get_nil] at hcur
      subst hcur
      simp [JObj.set, JObj.toList, findInDayData, findInComps, hm]
  | hcons k v t ih =>
      simp only [JObj.toList] at h
      unfold findInDayData at h
      by_cases hk : k = "components"
      · subst hk
        simp only [JObj.get, if_true] at hcur
        simp only [JObj.set, if_pos rfl, JObj.toList]
        unfold findInDayData
        simp only [if_true, JArr.toList_ofList]
        cases v with
        | arr a =>
            simp only [] at hcur
            subst hcur
            simp only [if_true] at h
            cases hc : findInComps dk "components" 0 a.toList cid with
            | some r => rw [hc] at h; cases h
            | none =>
                rw [findInComps_append dk "components" 0 a.toList cid o' hm hc]
                simp
        | obj o1 =>
            simp only [] at hcur
            subst hcur
            simp [findInComps, hm]
        | null =>
            simp only [] at hcur
            subst hcur
            simp [findInComps, hm]
        | bool b =>
            simp only [] at hcur
            subst hcur
            simp [findInComps, hm]
        | num m =>
            simp only [] at hcur
            subst hcur
            simp [findInComps, hm]
        | str s =>
            simp only [] at hcur
            subst hcur
            simp [findInComps, hm]
      · simp only [JObj.get, if_neg hk] at hcur
        simp only [JObj.set, if_neg hk, JObj.toList]
        unfold findInDayData
        cases v with
        | obj o1 =>
            simp only [] at h ⊢
            cases hmo : compIdMatches o1 cid with
            | true => simp only [hmo, if_true] at h; cases h
            | false =>
                simp only [hmo, Bool.false_eq_true, if_false] at h ⊢
                exact ih cur hcur h
        | arr a =>
            simp only [] at h ⊢
            rw [if_neg hk] at h ⊢
            exact ih cur hcur h
        | null => simp only [] at h ⊢; exact ih cur hcur h
        | bool b => simp only [] at h ⊢; exact ih cur hcur h
        | num m => simp only [] at h ⊢; exact ih cur hcur h
        | str s => simp only [] at h ⊢; exact ih cur hcur h

theorem findInDays_set_comps (days : List (String × JObj)) (dk cid : String)
    (o' : JObj) (cur : List JVal)
    (hm : compIdMatches o' cid = true)
    (hcur : (match ((getDay days dk).getD .nil).get "components" with
              | some (.arr a) => a.toList
              | _ => ([] : List JVal)) = cur)
    (h : findInDays days cid = none) :
    findInDays (setDay days dk (((getDay days dk).getD .nil).set "components"
        (.arr (JArr.ofList (cur ++ [.obj o'])))) ) cid
      = some (.item dk "components" cur.length, o') := by
  induction days with
  | nil =>
      have hg : getDay ([] : List (String × JObj)) dk = none := rfl
      rw [hg, Option.getD_none] at hcur ⊢
      simp only [setDay]
      unfold findInDays
      rw [findInDayData_set_comps dk cid o' JObj.nil cur hm hcur (by rfl)]
  | cons p t ih =>
      obtain ⟨k0, d0⟩ := p
      unfold findInDays at h
      cases hd : findInDayData k0 d0.toList cid with
      | some r => rw [hd] at h; cases h
      | none =>
          rw [hd] at h
          by_cases hk : k0 = dk
          · subst hk
            have hg : getDay ((k0, d0) :: t) k0 = some d0 := by simp [getDay]
            rw [hg, Option.getD_some] at hcur ⊢
            simp only [setDay, if_true]
            unfold findInDays
            rw [findInDayData_set_comps k0 cid o' d0 cur hm hcur hd]
          · have hg : getDay ((k0, d0) :: t) dk = getDay t dk := by
              unfold getDay
              rw [List.find?_cons_of_neg]
              simp [hk]
            rw [hg] at hcur ⊢
            simp only [setDay, if_neg hk]
            unfold findInDays
            rw [hd]
            exact ih hcur h

theorem findInComps_matches (dk sk : String) (j : Nat) (l : List JVal) (cid : String)
    (r : Loc × JObj) (h : findInComps dk sk j l cid = some r) :
    compIdMatches r.2 cid = true := by
  induction l generalizing j with
  | nil => simp [findInComps] at h
  | cons v t ih =>
      unfold findInComps at h
      cases v with
      | obj o0 =>
          simp only [] at h
          cases hmo : compIdMatches o0 cid with
          | true =>
              simp only [hmo, if_true] at h
              injection h with h
              rw [← h]
              exact hmo
          | false =>
              simp only [hmo, Bool.false_eq_true, if_false] at h
              exact ih (j + 1) h
      | arr a => simp only [] at h; exact ih (j + 1) h
      | null => simp only [] at h; exact ih (j + 1) h
      | bool b => simp only [] at h; exact ih (j + 1) h
      | num m => simp only [] at h; exact ih (j + 1) h
      | str s => simp only [] at h; exact ih (j + 1) h

theorem findInDayData_matches (dk : String) (l : List (String × JVal)) (cid : String)
    (r : Loc × JObj) (h : findInDayData dk l cid = some r) :
    compIdMatches r.2 cid = true := by
  induction l with
  | nil => simp [findInDayData] at h
  | cons p t ih =>
      obtain ⟨sk0, v⟩ := p
      unfold findInDayData at h
      cases v with
      | obj o0 =>
          simp only [] at h
          cases hmo : compIdMatches o0 cid with
          | true =>
              simp only [hmo, if_true] at h
              injection h with h
              rw [← h]
              exact hmo
          | false =>
              simp only [hmo, Bool.false_eq_true, if_false] at h
              exact ih h
      | arr a =>
          simp only [] at h
          by_cases hk : sk0 = "components"
          · rw [if_pos hk] at h
            cases hc : findInComps dk sk0 0 a.toList cid with
            | some r2 =>
                rw [hc] at h
                injection h with h
                subst h
                exact findInComps_matches dk sk0 0 a.toList cid _ hc
            | none =>
                rw [hc] at h
                exact ih h
          · rw [if_neg hk] at h
            exact ih h
      | null => simp only [] at h; exact ih h
      | bool b => simp only [] at h; exact ih h
      | num m => simp only [] at h; exact ih h
      | str s => simp only [] at h; exact ih h

theorem findInDays_matches (days : List (String × JObj)) (cid : String)
    (r : Loc × JObj) (h : findInDays days cid = some r) :
    compIdMatches r.2 cid = true := by
  induction days with
  | nil => simp [findInDays] at h
  | cons p t ih =>
      obtain ⟨dk0, dd⟩ := p
      unfold findInDays at h
      cases hd : findInDayData dk0 dd.toList cid with
      | some r2 =>
          rw [hd] at h
          injection h with h
          subst h
          exact findInDayData_matches dk0 dd.toList cid _ hd
      | none =>
          rw [hd] at h
          exact ih h

theorem getComponentR_set_acc (reg : Registry) (cid : String) (o : JObj)
    (hm : compIdMatches o cid = true) :
    getComponentR (some {reg with accommodation := .comp o}) cid = .ok (some o) := by
  unfold getComponentR
  rw [locateComponent_fwd_acc {reg with accommodation := .comp o} cid o rfl hm]
  rfl

theorem getComponentR_set_trans (reg : Registry) (cid : String) (o : JObj)
    (hamiss : entryMissesId reg.accommodation cid = true)
    (hm : compIdMatches o cid = true) :
    getComponentR (some {reg with transport := .comp o}) cid = .ok (some o) := by
  unfold getComponentR
  rw [locateComponent_fwd_trans {reg with transport := .comp o} cid o hamiss rfl hm]
  rfl

theorem getComponentR_after_slot_insert (reg : Registry) (dk sk cid : String) (o' : JObj)
    (hm : compIdMatches o' cid = true) (hclean : scanClean reg cid = true) :
    getComponentR (some {reg with days := setDay reg.days dk (((getDay reg.days dk).getD .nil).set sk (.obj o'))}) cid = .ok (some o') := by
  unfold scanClean at hclean
  simp only [Bool.and_eq_true, beq_iff_eq] at hclean
  obtain ⟨⟨hacc, htr⟩, hdays⟩ := hclean
  unfold getComponentR
  rw [locateComponent_fwd_days {reg with days := setDay reg.days dk (((getDay reg.days dk).getD .nil).set sk (.obj o'))} cid (.slot dk sk, o') hacc htr (findInDays_set_none reg.days dk sk cid o' hm hdays)]
  rfl

theorem getComponentR_after_comps_insert (reg : Registry) (dk cid : String) (o' : JObj)
    (cur : List JVal) (hm : compIdMatches o' cid = true)
    (hcur : (match ((getDay reg.days dk).getD .nil).get "components" with
              | some (.arr a) => a.toList
              | _ => ([] : List JVal)) = cur)
    (hclean : scanClean reg cid = true) :
    getComponentR (some {reg with days := setDay reg.days dk (((getDay reg.days dk).getD .nil).set "components" (.arr (JArr.ofList (cur ++ [.obj o']))))}) cid = .ok (some o') := by
  unfold scanClean at hclean
  simp only [Bool.and_eq_true, beq_iff_eq] at hclean
  obtain ⟨⟨hacc, htr⟩, hdays⟩ := hclean
  unfold getComponentR
  rw [locateComponent_fwd_days {reg with days := setDay reg.days dk (((getDay reg.days dk).getD .nil).set "components" (.arr (JArr.ofList (cur ++ [.obj o']))))} cid (.item dk "components" cur.length, o') hacc htr (findInDays_set_comps reg.days dk cid o' cur hm hcur hdays)]
  rfl

theorem getComponentR_after_slot_update (reg : Registry) (dk sk cid : String) (o' o0 : JObj)
    (hm : compIdMatches o' cid = true)
    (hamiss : entryMissesId reg.accommodation cid = true)
    (htmiss : entryMissesId reg.transport cid = true)
    (hdays : findInDays reg.days cid = some (.slot dk sk, o0)) :
    getComponentR (some {reg with days := setDay reg.days dk (((getDay reg.days dk).getD .nil).set sk (.obj o'))}) cid = .ok (some o') := by
  unfold getComponentR
  rw [locateComponent_fwd_days {reg with days := setDay reg.days dk (((getDay reg.days dk).getD .nil).set sk (.obj o'))} cid (.slot dk sk, o') hamiss htmiss (findInDays_set_found reg.days dk sk cid o' o0 hm hdays)]
  rfl

theorem findInComps_idx_ge (dk sk : String) (j : Nat) (l : List JVal) (cid : String)
    (i : Nat) (o : JObj) (h : findInComps dk sk j l cid = some (.item dk sk i, o)) :
    j ≤ i := by
  induction l generalizing j with
  | nil => simp [findInComps] at h
  | cons v t ih =>
      unfold findInComps at h
      cases v with
      | obj o0 =>
          simp only [] at h
          cases hmo : compIdMatches o0 cid with
          | true =>
              simp only [hmo, if_true] at h
              injection h with h
              simp only [Prod.mk.injEq, Loc.item.injEq] at h
              obtain ⟨⟨_, _, h3⟩, _⟩ := h
              omega
          | false =>
              simp only [hmo, Bool.false_eq_true, if_false] at h
              have := ih (j + 1) h
              omega
      | arr a => simp only [] at h; have := ih (j + 1) h; omega
      | null => simp only [] at h; have := ih (j + 1) h; omega
      | bool b => simp only [] at h; have := ih (j + 1) h; omega
      | num m => simp only [] at h; have := ih (j + 1) h; omega
      | str s => simp only [] at h; have := ih (j + 1) h; omega

theorem findInComps_set_found (dk sk : String) (j : Nat) (l : List JVal) (cid : String)
    (i : Nat) (o o' : JObj) (hm : compIdMatches o' cid = true)
    (h : findInComps dk sk j l cid = some (.item dk sk i, o)) :
    findInComps dk sk j (l.set (i - j) (.obj o')) cid = some (.item dk sk i, o') := by
  induction l generalizing j with
  | nil => simp [findInComps] at h
  | cons v t ih =>
      unfold findInComps at h
      cases v with
      | obj o0 =>
          simp only [] at h
          cases hmo : compIdMatches o0 cid with
          | true =>
              simp only [hmo, if_true] at h
              injection h with h
              simp only [Prod.mk.injEq, Loc.item.injEq] at h
              obtain ⟨⟨_, _, hji⟩, _⟩ := h
              subst hji
              simp only [Nat.sub_self, List.set]
              unfold findInComps
              simp [hm]
          | false =>
              simp only [hmo, Bool.false_eq_true, if_false] at h
              have hge := findInComps_idx_ge dk sk (j + 1) t cid i o h
              have hsub : i - j = (i - (j + 1)) + 1 := by omega
              rw [hsub]
              simp only [List.set]
              unfold findInComps
              simp only [hmo, Bool.false_eq_true, if_false]
              exact ih (j + 1) h
      | arr a =>
          simp only [] at h
          have hge := findInComps_idx_ge dk sk (j + 1) t cid i o h
          have hsub : i - j = (i - (j + 1)) + 1 := by omega
          rw [hsub]
          simp only [List.set]
          unfold findInComps
          simp only []
          exact ih (j + 1) h
      | null =>
          simp only [] at h
          have hge := findInComps_idx_ge dk sk (j + 1) t cid i o h
          have hsub : i - j = (i - (j + 1)) + 1 := by omega
          rw [hsub]
          simp only [List.set]
          unfold findInComps
          simp only []
          exact ih (j + 1) h
      | bool b =>
          simp only [] at h
          have hge := findInComps_idx_ge dk sk (j + 1) t cid i o h
          have hsub : i - j = (i - (j + 1)) + 1 := by omega
          rw [hsub]
          simp only [List.set]
          unfold findInComps
          simp only []
          exact ih (j + 1) h
      | num m =>
          simp only [] at h
          have hge := findInComps_idx_ge dk sk (j + 1) t cid i o h
          have hsub : i - j = (i - (j + 1)) + 1 := by omega
          rw [hsub]
          simp only [List.set]
          unfold findInComps
          simp only []
          exact ih (j + 1) h
      | str s =>
          simp only [] at h
          have hge := findInComps_idx_ge dk sk (j + 1) t cid i o h
          have hsub : i - j = (i - (j + 1)) + 1 := by omega
          rw [hsub]
          simp only [List.set]
          unfold findInComps
          simp only []
          exact ih (j + 1) h

theorem findInDayData_item_key (dk : String) (l : List (String × JVal)) (cid : String)
    (dk' sk' : String) (i : Nat) (o : JObj)
    (h : findInDayData dk l cid = some (.item dk' sk' i, o)) :
    sk' ∈ l.map Prod.fst := by
  induction l with
  | nil => simp [findInDayData] at h
  | cons p t ih =>
      obtain ⟨sk0, v⟩ := p
      unfold findInDayData at h
      cases v with
      | obj o0 =>
          simp only [] at h
          cases hmo : compIdMatches o0 cid with
          | true =>
              simp only [hmo, if_true] at h
              injection h with h
              simp only [Prod.mk.injEq] at h
              exact absurd h.1 (by simp)
          | false =>
              simp only [hmo, Bool.false_eq_true, if_false] at h
              simp only [List.map_cons]
              exact List.mem_cons_of_mem _ (ih h)
      | arr a =>
          simp only [] at h
          by_cases hk : sk0 = "components"
          · rw [if_pos hk] at h
            cases hc : findInComps dk sk0 0 a.toList cid with
            | some r =>
                rw [hc] at h
                injection h with h
                obtain ⟨i2, hi2⟩ := findInComps_shape dk sk0 0 a.toList cid r hc
                rw [h] at hi2
                simp only [] at hi2
                injection hi2 with _ h2 _
                simp only [List.map_cons]
                rw [h2]
                exact List.mem_cons_self _ _
            | none =>
                rw [hc] at h
                simp only [List.map_cons]
                exact List.mem_cons_of_mem _ (ih h)
          · rw [if_neg hk] at h
            simp only [List.map_cons]
            exact List.mem_cons_of_mem _ (ih h)
      | null => simp only [] at h; simp only [List.map_cons]; exact List.mem_cons_of_mem _ (ih h)
      | bool b => simp only [] at h; simp only [List.map_cons]; exact List.mem_cons_of_mem _ (ih h)
      | num m => simp only [] at h; simp only [List.map_cons]; exact List.mem_cons_of_mem _ (ih h)
      | str s => simp only [] at h; simp only [List.map_cons]; exact List.mem_cons_of_mem _ (ih h)

theorem findInDayData_item_comps (dk : String) (l : List (String × JVal)) (cid : String)
    (dk' sk' : String) (i : Nat) (o : JObj)
    (h : findInDayData dk l cid = some (.item dk' sk' i, o)) :
    sk' = "components" := by
  induction l with
  | nil => simp [findInDayData] at h
  | cons p t ih =>
      obtain ⟨sk0, v⟩ := p
      unfold findInDayData at h
      cases v with
      | obj o0 =>
          simp only [] at h
          cases hmo : compIdMatches o0 cid with
          | true =>
              simp only [hmo, if_true] at h
              injection h with h
              simp only [Prod.mk.injEq] at h
              exact absurd h.1 (by simp)
          | false =>
              simp only [hmo, Bool.false_eq_true, if_false] at h
              exact ih h
      | arr a =>
          simp only [] at h
          by_cases hk : sk0 = "components"
          · rw [if_pos hk] at h
            cases hc : findInComps dk sk0 0 a.toList cid with
            | some r =>
                rw [hc] at h
                injection h with h
                obtain ⟨i2, hi2⟩ := findInComps_shape dk sk0 0 a.toList cid r hc
                rw [h] at hi2
                simp only [] at hi2
                injection hi2 with _ h2 _
                rw [h2, hk]
            | none =>
                rw [hc] at h
                exact ih h
          · rw [if_neg hk] at h
            exact ih h
      | null => simp only [] at h; exact ih h
      | bool b => simp only [] at h; exact ih h
      | num m => simp only [] at h; exact ih h
      | str s => simp only [] at h; exact ih h

theorem findInDays_item_day_key (days : List (String × JObj)) (cid : String)
    (dk sk : String) (i : Nat) (o : JObj)
    (h : findInDays days cid = some (.item dk sk i, o)) :
    dk ∈ days.map Prod.fst := by
  induction days with
  | nil => simp [findInDays] at h
  | cons p t ih =>
      obtain ⟨k0, d0⟩ := p
      unfold findInDays at h
      cases hd : findInDayData k0 d0.toList cid with
      | some r =>
          rw [hd] at h
          injection h with h
          subst h
          rcases findInDayData_shape k0 d0.toList cid _ hd with ⟨sk1, hs⟩ | ⟨sk1, i1, hs⟩
          · simp at hs
          · simp only [] at hs
            injection hs with h1 _ _
            simp only [List.map_cons]
            rw [h1]
            exact List.mem_cons_self _ _
      | none =>
          rw [hd] at h
          simp only [List.map_cons]
          exact List.mem_cons_of_mem _ (ih h)

theorem findInDays_item_comps (days : List (String × JObj)) (cid : String)
    (dk sk : String) (i : Nat) (o : JObj)
    (h : findInDays days cid = some (.item dk sk i, o)) :
    sk = "components" := by
  induction days with
  | nil => simp [findInDays] at h
  | cons p t ih =>
      obtain ⟨k0, d0⟩ := p
      unfold findInDays at h
      cases hd : findInDayData k0 d0.toList cid with
      | some r =>
          rw [hd] at h
          injection h with h
          subst h
          exact findInDayData_item_comps k0 d0.toList cid dk sk i o hd
      | none =>
          rw [hd] at h
          exact ih h

theorem findInDayData_set_item (dk cid : String) (i : Nat) (o o' : JObj) (dd : JObj)
    (l : List JVal)
    (hm : compIdMatches o' cid = true)
    (hnd : (keysOf dd).Nodup)
    (hl : (match dd.get "components" with
            | some (.arr a) => a.toList
            | _ => ([] : List JVal)) = l)
    (h : findInDayData dk dd.toList cid = some (.item dk "components" i, o)) :
    findInDayData dk (dd.set "components" (.arr (JArr.ofList (l.set i (.obj o'))))).toList cid
      = some (.item dk "components" i, o') := by
  induction dd using JObj.induct generalizing l with
  | hnil => simp [JObj.toList, findInDayData] at h
  | hcons k v t ih =>
      simp only [keysOf, JObj.toList, List.map_cons, List.nodup_cons] at hnd
      obtain ⟨hknot, hndt⟩ := hnd
      simp only [JObj.toList] at h
      unfold findInDayData at h
      by_cases hk : k = "components"
      · subst hk
        simp only [JObj.get, if_true] at hl
        simp only [JObj.set, if_pos rfl, JObj.toList]
        unfold findInDayData
        simp only [if_true, JArr.toList_ofList]
        cases v with
        | arr a =>
            simp only [] at hl
            subst hl
            simp only [if_true] at h
            cases hc : findInComps dk "components" 0 a.toList cid with
            | some r =>
                rw [hc] at h
                injection h with h
                subst h
                have hset := findInComps_set_found dk "components" 0 a.toList cid i o o' hm hc
                rw [Nat.sub_zero] at hset
                rw [hset]
            | none =>
                rw [hc] at h
                exact absurd (findInDayData_item_key dk t.toList cid dk "components" i o h) hknot
        | obj o1 =>
            simp only [] at hl
            subst hl
            simp only [] at h
            cases hmo : compIdMatches o1 cid with
            | true =>
                simp only [hmo, if_true] at h
                injection h with h
                simp only [Prod.mk.injEq] at h
                exact absurd h.1 (by simp)
            | false =>
                simp only [hmo, Bool.false_eq_true, if_false] at h
                exact absurd (findInDayData_item_key dk t.toList cid dk "components" i o h) hknot
        | null =>
            simp only [] at hl
            subst hl
            simp only [] at h
            exact absurd (findInDayData_item_key dk t.toList cid dk "components" i o h) hknot
        | bool b =>
            simp only [] at hl
            subst hl
            simp only [] at h
            exact absurd (findInDayData_item_key dk t.toList cid dk "components" i o h) hknot
        | num m =>
            simp only [] at hl
            subst hl
            simp only [] at h
            exact absurd (findInDayData_item_key dk t.toList cid dk "components" i o h) hknot
        | str s =>
            simp only [] at hl
            subst hl
            simp only [] at h
            exact absurd (findInDayData_item_key dk t.toList cid dk "components" i o h) hknot
      · simp only [JObj.get, if_neg hk] at hl
        simp only [JObj.set, if_neg hk, JObj.toList]
        unfold findInDayData
        cases v with
        | obj o1 =>
            simp only [] at h ⊢
            cases hmo : compIdMatches o1 cid with
            | true =>
                simp only [hmo, if_true] at h
                injection h with h
                simp only [Prod.mk.injEq] at h
                exact absurd h.1 (by simp)
            | false =>
                simp only [hmo, Bool.false_eq_true, if_false] at h ⊢
                exact ih l hndt hl h
        | arr a =>
            simp only [] at h ⊢
            rw [if_neg hk] at h ⊢
            exact ih l hndt hl h
        | null => simp only [] at h ⊢; exact ih l hndt hl h
        | bool b => simp only [] at h ⊢; exact ih l hndt hl h
        | num m => simp only [] at h ⊢; exact ih l hndt hl h
        | str s => simp only [] at h ⊢; exact ih l hndt hl h

theorem findInDays_set_item (days : List (String × JObj)) (dk cid : String) (i : Nat)
    (o o' : JObj) (l : List JVal)
    (hm : compIdMatches o' cid = true)
    (hdk : (days.map Prod.fst).Nodup)
    (hdd : ∀ p ∈ days, (keysOf p.2).Nodup)
    (hl : (match ((getDay days dk).getD .nil).get "components" with
            | some (.arr a) => a.toList
            | _ => ([] : List JVal)) = l)
    (h : findInDays days cid = some (.item dk "components" i, o)) :
    findInDays (setDay days dk (((getDay days dk).getD .nil).set "components"
        (.arr (JArr.ofList (l.set i (.obj o')))))) cid
      = some (.item dk "components" i, o') := by
  induction days with
  | nil => simp [findInDays] at h
  | cons p t ih =>
      obtain ⟨k0, d0⟩ := p
      simp only [List.map_cons, List.nodup_cons] at hdk
      obtain ⟨hk0not, hdkt⟩ := hdk
      unfold findInDays at h
      cases hd : findInDayData k0 d0.toList cid with
      | some r =>
          rw [hd] at h
          injection h with h
          subst h
          have hk0 : k0 = dk := by
            rcases findInDayData_shape k0 d0.toList cid _ hd with ⟨sk1, hs⟩ | ⟨sk1, i1, hs⟩
            · simp at hs
            · simp only [] at hs
              injection hs with h1 _ _
              exact h1.symm
          subst hk0
          have hg : getDay ((k0, d0) :: t) k0 = some d0 := by simp [getDay]
          rw [hg, Option.getD_some] at hl ⊢
          simp only [setDay, if_true]
          unfold findInDays
          rw [findInDayData_set_item k0 cid i o o' d0 l hm
            (hdd (k0, d0) (List.mem_cons_self _ _)) hl hd]
      | none =>
          rw [hd] at h
          by_cases hk : k0 = dk
          · subst hk
            exact absurd (findInDays_item_day_key t cid k0 "components" i o h) hk0not
          · have hg : getDay ((k0, d0) :: t) dk = getDay t dk := by
              unfold getDay
              rw [List.find?_cons_of_neg]
              simp [hk]
            rw [hg] at hl ⊢
            simp only [setDay, if_neg hk]
            unfold findInDays
            rw [hd]
            exact ih hdkt (fun p hp => hdd p (List.mem_cons_of_mem _ hp)) hl h

theorem getComponentR_after_item_update (reg : Registry) (dk cid : String) (i : Nat)
    (o o' : JObj) (l : List JVal)
    (hm : compIdMatches o' cid = true)
    (hamiss : entryMissesId reg.accommodation cid = true)
    (htmiss : entryMissesId reg.transport cid = true)
    (hdk : (reg.days.map Prod.fst).Nodup)
    (hdd : ∀ p ∈ reg.days, (keysOf p.2).Nodup)
    (hl : (match ((getDay reg.days dk).getD .nil).get "components" with
            | some (.arr a) => a.toList
            | _ => ([] : List JVal)) = l)
    (hdays : findInDays reg.days cid = some (.item dk "components" i, o)) :
    getComponentR (some {reg with days := setDay reg.days dk (((getDay reg.days dk).getD .nil).set "components" (.arr (JArr.ofList (l.set i (.obj o')))))}) cid = .ok (some o') := by
  unfold getComponentR
  rw [locateComponent_fwd_days {reg with days := setDay reg.days dk (((getDay reg.days dk).getD .nil).set "components" (.arr (JArr.ofList (l.set i (.obj o')))))} cid (.item dk "components" i, o') hamiss htmiss (findInDays_set_item reg.days dk cid i o o' l hm hdk hdd hl hdays)]
  rfl

theorem registry_rt_acc (reg? : Option Registry) (data : JObj) (day? : Option Nat)
    (slot? : Option String) (suffix now : String) (reg' : Registry) (cid : String)
    (hr : registerComponentR reg? data "accommodation" day? slot? suffix now = (reg', cid)) :
    getComponentR (some reg') cid = .ok (some (stampData data cid "accommodation" now)) := by
  have he : registerComponentR reg? data "accommodation" day? slot? suffix now
      = ({reg?.getD emptyRegistry with accommodation := .comp (stampData data (generateComponentId "accommodation" day? slot? suffix) "accommodation" now)}, generateComponentId "accommodation" day? slot? suffix) := rfl
  rw [he, Prod.mk.injEq] at hr
  obtain ⟨hreg, hcid⟩ := hr
  subst hreg
  subst hcid
  exact getComponentR_set_acc (reg?.getD emptyRegistry) _ _
    (compIdMatches_stampData data _ "accommodation" now)

theorem registry_rt_trans (reg? : Option Registry) (data : JObj) (day? : Option Nat)
    (slot? : Option String) (suffix now : String) (reg' : Registry) (cid : String)
    (hr : registerComponentR reg? data "transport" day? slot? suffix now = (reg', cid))
    (hamiss : entryMissesId (reg?.getD emptyRegistry).accommodation cid = true) :
    getComponentR (some reg') cid = .ok (some (stampData data cid "transport" now)) := by
  have he : registerComponentR reg? data "transport" day? slot? suffix now
      = ({reg?.getD emptyRegistry with transport := .comp (stampData data (generateComponentId "transport" day? slot? suffix) "transport" now)}, generateComponentId "transport" day? slot? suffix) := rfl
  rw [he, Prod.mk.injEq] at hr
  obtain ⟨hreg, hcid⟩ := hr
  subst hreg
  subst hcid
  exact getComponentR_set_trans (reg?.getD emptyRegistry) _ _ hamiss
    (compIdMatches_stampData data _ "transport" now)

theorem registry_rt_slot (reg? : Option Registry) (data : JObj) (ctype : String)
    (n : Nat) (s : String) (suffix now : String) (reg' : Registry) (cid : String)
    (hr : registerComponentR reg? data ctype (some n) (some s) suffix now = (reg', cid))
    (hc1 : ctype ≠ "accommodation") (hc2 : ctype ≠ "transport") (hs : s ≠ "")
    (hclean : scanClean (reg?.getD emptyRegistry) cid = true) :
    getComponentR (some reg') cid = .ok (some (stampData data cid ctype now)) := by
  unfold registerComponentR at hr
  rw [if_neg hc1, if_neg hc2] at hr
  simp only [] at hr
  rw [if_pos hs] at hr
  simp only [] at hr
  rw [Prod.mk.injEq] at hr
  obtain ⟨hreg, hcid⟩ := hr
  subst hreg
  subst hcid
  exact getComponentR_after_slot_insert (reg?.getD emptyRegistry) _ _ _ _
    (compIdMatches_stampData data _ ctype now) hclean

theorem registry_rt_comps (reg? : Option Registry) (data : JObj) (ctype : String)
    (n : Nat) (suffix now : String) (reg' : Registry) (cid : String)
    (hr : registerComponentR reg? data ctype (some n) none suffix now = (reg', cid))
    (hc1 : ctype ≠ "accommodation") (hc2 : ctype ≠ "transport")
    (hclean : scanClean (reg?.getD emptyRegistry) cid = true) :
    getComponentR (some reg') cid = .ok (some (stampData data cid ctype now)) := by
  unfold registerComponentR at hr
  rw [if_neg hc1, if_neg hc2] at hr
  simp only [] at hr
  rw [Prod.mk.injEq] at hr
  obtain ⟨hreg, hcid⟩ := hr
  subst hreg
  subst hcid
  exact getComponentR_after_comps_insert (reg?.getD emptyRegistry) _ _ _ _
    (compIdMatches_stampData data _ ctype now) rfl hclean

theorem registry_rt_update (reg? : Option Registry) (cid : String) (updates : JObj)
    (now : String) (loc : Loc) (o : JObj)
    (hloc : locateComponent reg? cid = .ok (some (loc, o)))
    (hnil : o ≠ JObj.nil)
    (hupd : updates.get "component_id" = none)
    (hkeys : (∀ dk sk i, loc ≠ .item dk sk i)
      ∨ ((((reg?.getD emptyRegistry).days.map Prod.fst).Nodup)
          ∧ ∀ p ∈ (reg?.getD emptyRegistry).days, (keysOf p.2).Nodup)) :
    updateComponentR reg? cid updates now
      = .ok (true, some (setAtLoc (reg?.getD emptyRegistry) loc ((o.update updates).set "last_modified" (.str now))))
    ∧ getComponentR (some (setAtLoc (reg?.getD emptyRegistry) loc ((o.update updates).set "last_modified" (.str now)))) cid
      = .ok (some ((o.update updates).set "last_modified" (.str now))) := by
  cases reg? with
  | none => simp [locateComponent] at hloc
  | some reg =>
      have hcomp : updateComponentR (some reg) cid updates now
          = .ok (true, some (setAtLoc reg loc ((o.update updates).set "last_modified" (.str now)))) := by
        unfold updateComponentR
        rw [hloc]
        show (if o = JObj.nil then (Except.ok (false, some reg) : Except String (Bool × Option Registry)) else Except.ok (true, some (setAtLoc ((some reg).getD emptyRegistry) loc ((o.update updates).set "last_modified" (JVal.str now)))))
          = Except.ok (true, some (setAtLoc reg loc ((o.update updates).set "last_modified" (JVal.str now))))
        rw [if_neg hnil]
        rfl
      refine ⟨hcomp, ?_⟩
      rcases locateComponent_inv reg cid loc o hloc with ⟨hl, ha, hm⟩ |
        ⟨hamiss, ⟨hl, htc, hm⟩ | ⟨htmiss, hdays⟩⟩
      · subst hl
        exact getComponentR_set_acc reg cid _
          (compIdMatches_updated o updates cid now hm hupd)
      · subst hl
        exact getComponentR_set_trans reg cid _ hamiss
          (compIdMatches_updated o updates cid now hm hupd)
      · have hm : compIdMatches o cid = true := findInDays_matches reg.days cid (loc, o) hdays
        cases loc with
        | acc =>
            obtain ⟨dk', hsh⟩ := findInDays_shape reg.days cid _ hdays
            rcases hsh with ⟨sk', hs⟩ | ⟨sk', i', hs⟩ <;> simp at hs
        | trans =>
            obtain ⟨dk', hsh⟩ := findInDays_shape reg.days cid _ hdays
            rcases hsh with ⟨sk', hs⟩ | ⟨sk', i', hs⟩ <;> simp at hs
        | item dk sk i =>
            have hsk : sk = "components" := findInDays_item_comps reg.days cid dk sk i o hdays
            subst hsk
            rcases hkeys with hno | ⟨hdk, hdd⟩
            · exact absurd rfl (hno dk "components" i)
            · exact getComponentR_after_item_update reg dk cid i o _ _
                (compIdMatches_updated o updates cid now hm hupd) hamiss htmiss hdk hdd rfl hdays
        | slot dk sk =>
            exact getComponentR_after_slot_update reg dk sk cid _ o
              (compIdMatches_updated o updates cid now hm hupd) hamiss htmiss hdays

theorem registry_rt_delete (reg? : Option Registry) (cid : String) (loc : Loc) (o : JObj)
    (hloc : locateComponent reg? cid = .ok (some (loc, o)))
    (hclean : scanClean (deleteAtLoc (reg?.getD emptyRegistry) loc) cid = true) :
    deleteComponentR reg? cid = .ok (true, some (deleteAtLoc (reg?.getD emptyRegistry) loc))
    ∧ getComponentR (some (deleteAtLoc (reg?.getD emptyRegistry) loc)) cid = .ok none := by
  cases reg? with
  | none => simp [locateComponent] at hloc
  | some reg =>
      refine ⟨?_, getComponentR_none_of_scanClean _ cid hclean⟩
      unfold deleteComponentR getComponentPathR
      rw [hloc]
      rfl

/-- C7 counterexample.  A day-less component of a type other than
accommodation/transport falls through every filing branch of
`register_component`: the registry is returned UNCHANGED while the generated
component id is still handed back, so the promised `get(register(x)) == x`
round-trip fails — `get_component` on the returned id yields the not-found
sentinel instead of the stamped object. -/
theorem registry_dayless_component_lost_cex :
    (registerComponentR (some regTwoSingles) kayakData "activity" none none "u1" "T1").1
      = regTwoSingles
    ∧ (registerComponentR (some regTwoSingles) kayakData "activity" none none "u1" "T1").2
      = "activity_u1"
    ∧ getComponentR (some regTwoSingles) "activity_u1" = .ok none :=
  ⟨rfl, rfl, rfl⟩

/-- C7 (amended).  Component-registry round-trip, in the cases where
`register_component` actually files the object and the scan does not hit a
`None` placeholder: (1) an accommodation registration is always retrievable as
the stamped object; (2) a transport registration is retrievable whenever the
accommodation singleton neither crashes the scan nor shadows the id; (3) a
typed component registered with a day and a non-empty slot lands under
`dayN/slot_slot` and is retrievable whenever the pre-registration scan is
clean; (4) the same with no slot, appended to the day's `components` list;
(5) stamping adds only `component_id`, `component_type` and `registered_at`;
(6) for a located component whose update dict does not touch `component_id`,
`update_component` writes the merged object back and a subsequent get returns
exactly the merged object — for an entry of a day's `components` list this
holds under key-uniqueness of the registry's dicts, a property every
Python-representable state satisfies (duplicate keys are unrepresentable in a
dict; only the embedding's association lists can express them); (7) for a located
component whose removal leaves a clean registry, `delete_component` reports
success and a subsequent get returns the not-found sentinel.  Day-less
non-singleton registrations are the counterexample: they are filed nowhere. -/
theorem registry_round_trip :
    (∀ (reg? : Option Registry) (data : JObj) (day? : Option Nat) (slot? : Option String)
        (suffix now : String) (reg' : Registry) (cid : String),
        registerComponentR reg? data "accommodation" day? slot? suffix now = (reg', cid) →
        getComponentR (some reg') cid = .ok (some (stampData data cid "accommodation" now)))
    ∧ (∀ (reg? : Option Registry) (data : JObj) (day? : Option Nat) (slot? : Option String)
        (suffix now : String) (reg' : Registry) (cid : String),
        registerComponentR reg? data "transport" day? slot? suffix now = (reg', cid) →
        entryMissesId (reg?.getD emptyRegistry).accommodation cid = true →
        getComponentR (some reg') cid = .ok (some (stampData data cid "transport" now)))
    ∧ (∀ (reg? : Option Registry) (data : JObj) (ctype : String) (n : Nat) (s : String)
        (suffix now : String) (reg' : Registry) (cid : String),
        registerComponentR reg? data ctype (some n) (some s) suffix now = (reg', cid) →
        ctype ≠ "accommodation" → ctype ≠ "transport" → s ≠ "" →
        scanClean (reg?.getD emptyRegistry) cid = true →
        getComponentR (some reg') cid = .ok (some (stampData data cid ctype now)))
    ∧ (∀ (reg? : Option Registry) (data : JObj) (ctype : String) (n : Nat)
        (suffix now : String) (reg' : Registry) (cid : String),
        registerComponentR reg? data ctype (some n) none suffix now = (reg', cid) →
        ctype ≠ "accommodation" → ctype ≠ "transport" →
        scanClean (reg?.getD emptyRegistry) cid = true →
        getComponentR (some reg') cid = .ok (some (stampData data cid ctype now)))
    ∧ (∀ (x : JObj) (cid ctype now k : String),
        k ≠ "component_id" → k ≠ "component_type" → k ≠ "registered_at" →
        (stampData x cid ctype now).get k = x.get k)
    ∧ (∀ (reg? : Option Registry) (cid : String) (updates : JObj) (now : String)
        (loc : Loc) (o : JObj),
        locateComponent reg? cid = .ok (some (loc, o)) →
        o ≠ JObj.nil →
        updates.get "component_id" = none →
        ((∀ dk sk i, loc ≠ .item dk sk i)
          ∨ ((((reg?.getD emptyRegistry).days.map Prod.fst).Nodup)
              ∧ ∀ p ∈ (reg?.getD emptyRegistry).days, (keysOf p.2).Nodup)) →
        updateComponentR reg? cid updates now = .ok (true, some (setAtLoc (reg?.getD emptyRegistry) loc ((o.update updates).set "last_modified" (.str now))))
        ∧ getComponentR (some (setAtLoc (reg?.getD emptyRegistry) loc ((o.update updates).set "last_modified" (.str now)))) cid = .ok (some ((o.update updates).set "last_modified" (.str now))))
    ∧ (∀ (reg? : Option Registry) (cid : String) (loc : Loc) (o : JObj),
        locateComponent reg? cid = .ok (some (loc, o)) →
        scanClean (deleteAtLoc (reg?.getD emptyRegistry) loc) cid = true →
        deleteComponentR reg? cid = .ok (true, some (deleteAtLoc (reg?.getD emptyRegistry) loc))
        ∧ getComponentR (some (deleteAtLoc (reg?.getD emptyRegistry) loc)) cid = .ok none) :=
  ⟨registry_rt_acc, registry_rt_trans, registry_rt_slot, registry_rt_comps,
   stampData_get_other, registry_rt_update, registry_rt_delete⟩

/-- Witness for C7 at concrete inputs: on the two-singleton registry, an
accommodation, a transport, a day+slot activity and a day-only activity all
round-trip through register/get; stamping leaves `name` alone; updating an
activity stored inside a day's `components` list yields the merged object on
the next get, and deleting the stored accommodation behaves as stated. -/
theorem registry_round_trip_witness :
    getComponentR (some {regTwoSingles with accommodation := .comp (stampData hotelA "accommodation_w1" "accommodation" "T7")}) "accommodation_w1"
      = .ok (some (stampData hotelA "accommodation_w1" "accommodation" "T7"))
    ∧ getComponentR (some {regTwoSingles with transport := .comp (stampData (JObj.ofList [("mode", .str "train")]) "transport_w2" "transport" "T7")}) "transport_w2"
      = .ok (some (stampData (JObj.ofList [("mode", .str "train")]) "transport_w2" "transport" "T7"))
    ∧ getComponentR (some {regTwoSingles with days := [("day2", JObj.cons "morning_slot" (.obj (stampData kayakData "day2_morning_activity_w3" "activity" "T7")) JObj.nil)]}) "day2_morning_activity_w3"
      = .ok (some (stampData kayakData "day2_morning_activity_w3" "activity" "T7"))
    ∧ getComponentR (some {regTwoSingles with days := [("day3", JObj.cons "components" (.arr (JArr.cons (.obj (stampData kayakData "day3_activity_w4" "activity" "T7")) JArr.nil)) JObj.nil)]}) "day3_activity_w4"
      = .ok (some (stampData kayakData "day3_activity_w4" "activity" "T7"))
    ∧ (stampData hotelA "accommodation_w1" "accommodation" "T7").get "name" = hotelA.get "name"
    ∧ (updateComponentR (some {regTwoSingles with days := [("day3", JObj.cons "components" (.arr (JArr.cons (.obj (stampData kayakData "day3_activity_w4" "activity" "T7")) JArr.nil)) JObj.nil)]}) "day3_activity_w4" (JObj.ofList [("name", .str "Sea Kayaking")]) "T8"
        = .ok (true, some (setAtLoc {regTwoSingles with days := [("day3", JObj.cons "components" (.arr (JArr.cons (.obj (stampData kayakData "day3_activity_w4" "activity" "T7")) JArr.nil)) JObj.nil)]} (.item "day3" "components" 0) (((stampData kayakData "day3_activity_w4" "activity" "T7").update (JObj.ofList [("name", .str "Sea Kayaking")])).set "last_modified" (.str "T8"))))
      ∧ getComponentR (some (setAtLoc {regTwoSingles with days := [("day3", JObj.cons "components" (.arr (JArr.cons (.obj (stampData kayakData "day3_activity_w4" "activity" "T7")) JArr.nil)) JObj.nil)]} (.item "day3" "components" 0) (((stampData kayakData "day3_activity_w4" "activity" "T7").update (JObj.ofList [("name", .str "Sea Kayaking")])).set "last_modified" (.str "T8")))) "day3_activity_w4"
        = .ok (some (((stampData kayakData "day3_activity_w4" "activity" "T7").update (JObj.ofList [("name", .str "Sea Kayaking")])).set "last_modified" (.str "T8"))))
    ∧ (deleteComponentR (some regTwoSingles) "accommodation_a1"
        = .ok (true, some (deleteAtLoc regTwoSingles .acc))
      ∧ getComponentR (some (deleteAtLoc regTwoSingles .acc)) "accommodation_a1" = .ok none) :=
  ⟨registry_round_trip.1 (some regTwoSingles) hotelA none none "w1" "T7"
      {regTwoSingles with accommodation := .comp (stampData hotelA "accommodation_w1" "accommodation" "T7")}
      "accommodation_w1" rfl,
   registry_round_trip.2.1 (some regTwoSingles) (JObj.ofList [("mode", .str "train")]) none none "w2" "T7"
      {regTwoSingles with transport := .comp (stampData (JObj.ofList [("mode", .str "train")]) "transport_w2" "transport" "T7")}
      "transport_w2" rfl rfl,
   registry_round_trip.2.2.1 (some regTwoSingles) kayakData "activity" 2 "morning" "w3" "T7"
      {regTwoSingles with days := [("day2", JObj.cons "morning_slot" (.obj (stampData kayakData "day2_morning_activity_w3" "activity" "T7")) JObj.nil)]}
      "day2_morning_activity_w3" rfl (by decide) (by decide) (by decide) rfl,
   registry_round_trip.2.2.2.1 (some regTwoSingles) kayakData "activity" 3 "w4" "T7"
      {regTwoSingles with days := [("day3", JObj.cons "components" (.arr (JArr.cons (.obj (stampData kayakData "day3_activity_w4" "activity" "T7")) JArr.nil)) JObj.nil)]}
      "day3_activity_w4" rfl (by decide) (by decide) rfl,
   registry_round_trip.2.2.2.2.1 hotelA "accommodation_w1" "accommodation" "T7" "name"
      (by decide) (by decide) (by decide),
   registry_round_trip.2.2.2.2.2.1 (some {regTwoSingles with days := [("day3", JObj.cons "components" (.arr (JArr.cons (.obj (stampData kayakData "day3_activity_w4" "activity" "T7")) JArr.nil)) JObj.nil)]}) "day3_activity_w4"
      (JObj.ofList [("name", .str "Sea Kayaking")]) "T8" (.item "day3" "components" 0)
      (stampData kayakData "day3_activity_w4" "activity" "T7") rfl (by decide) rfl
      (Or.inr ⟨by decide, by decide⟩),
   registry_round_trip.2.2.2.2.2.2 (some regTwoSingles) "accommodation_a1" .acc accStored rfl rfl⟩
